import Mathlib

/-!
Shallow embedding of the minesweeper game-state engine from
src/core/game.rs, src/core/cell.rs and src/utils/constants.rs,
together with theorems settling the specification claims about it.
-/

/-- GRID_SIZE from src/utils/constants.rs. -/
def gridSize : Nat := 10

/-- MINE_COUNT from src/utils/constants.rs. -/
def mineCount : Nat := 15

/-- A board position (row, col), both indices in bounds. -/
abbrev Pos := Fin gridSize × Fin gridSize

/-- Cell struct from src/core/cell.rs. -/
structure Cell where
  is_mine : Bool
  is_revealed : Bool
  is_flagged : Bool
  adjacent_mines : Nat
deriving DecidableEq

/-- Cell::new from src/core/cell.rs. -/
def Cell.new : Cell :=
  { is_mine := false, is_revealed := false, is_flagged := false, adjacent_mines := 0 }

/-- GameState struct from src/core/game.rs (the text_cache field is
rendering-only and omitted).  The grid, a Vec of Vec of Cell of fixed
size GRID_SIZE x GRID_SIZE, is embedded as a total function on
in-bounds positions. -/
structure GameState where
  grid : Pos → Cell
  game_over : Bool
  won : Bool
  unrevealed_non_mine_count : Nat

instance : DecidableEq GameState := fun a b =>
  decidable_of_iff
    (a.grid = b.grid ∧ a.game_over = b.game_over ∧ a.won = b.won ∧
      a.unrevealed_non_mine_count = b.unrevealed_non_mine_count)
    (by cases a; cases b; simp)

/-- The eight (dr, dc) offsets iterated by the nested loops, dr in -1..=1
and dc in -1..=1 skipping (0, 0), in iteration order. -/
def deltas : List (Int × Int) :=
  [(-1,-1),(-1,0),(-1,1),(0,-1),(0,1),(1,-1),(1,0),(1,1)]

/-- The in-bounds Moore neighbors of a position in the iteration order of
the nested dr/dc loops (reveal_cell lines 127-141 and
for_each_adjacent_cell lines 168-187 of game.rs). -/
def adjacentCells (p : Pos) : List Pos :=
  deltas.filterMap fun d =>
    let nr : Int := (p.1 : Nat) + d.1
    let nc : Int := (p.2 : Nat) + d.2
    if h : 0 ≤ nr ∧ nr < gridSize ∧ 0 ≤ nc ∧ nc < gridSize then
      some (⟨nr.toNat, by omega⟩, ⟨nc.toNat, by omega⟩)
    else none

/-- Pointwise update of one grid cell. -/
def updateGrid (g : Pos → Cell) (p₀ : Pos) (c : Cell) : Pos → Cell :=
  fun p => if p = p₀ then c else g p

/-- Number of cells that are neither mines nor revealed: the quantity the
unrevealed_non_mine_count field is meant to track. -/
def unrevealedSafe (g : Pos → Cell) : Nat :=
  (Finset.univ.filter fun p : Pos =>
    (g p).is_mine = false ∧ (g p).is_revealed = false).card

/-- Number of mine cells on the grid. -/
def mineCard (g : Pos → Cell) : Nat :=
  (Finset.univ.filter fun p : Pos => (g p).is_mine = true).card

/-- Number of unrevealed cells (mines included); the recursion measure of
the flood fill. -/
def countUnrevealed (g : Pos → Cell) : Nat :=
  (Finset.univ.filter fun p : Pos => (g p).is_revealed = false).card

/-- Every mine cell is flagged (the scan in check_win lines 194-200). -/
def AllMinesFlagged (g : Pos → Cell) : Prop :=
  ∀ p : Pos, (g p).is_mine = true → (g p).is_flagged = true

instance (g : Pos → Cell) : Decidable (AllMinesFlagged g) := by
  unfold AllMinesFlagged; infer_instance

/-- check_win from game.rs lines 190-203: if the maintained counter is
zero and the mine scan finds no unflagged mine, set won. -/
def checkWin (s : GameState) : GameState :=
  if s.unrevealed_non_mine_count = 0 ∧ AllMinesFlagged s.grid then
    { s with won := true }
  else s

/-- reveal_cell from game.rs lines 106-153, with explicit recursion fuel.
Every nested call of the source that passes its guard reveals a cell that
was unrevealed, so nesting depth never exceeds the cell count and fuel
above it makes the cutoff unreachable; reveal below instantiates the
fuel that way. -/
def revealF : Nat → GameState → Pos → GameState
  | 0, s, _ => s
  | f + 1, s, p =>
    if s.game_over = true ∨ s.won = true ∨ (s.grid p).is_revealed = true ∨
        (s.grid p).is_flagged = true then s
    else
      let s1 : GameState :=
        { s with grid := updateGrid s.grid p ({ s.grid p with is_revealed := true }) }
      if (s1.grid p).is_mine = true then { s1 with game_over := true }
      else
        let s2 : GameState :=
          { s1 with unrevealed_non_mine_count := s1.unrevealed_non_mine_count - 1 }
        let s3 : GameState :=
          if (s2.grid p).adjacent_mines = 0 then
            (adjacentCells p).foldl
              (fun t q =>
                if (t.grid q).is_revealed = false ∧ (t.grid q).is_flagged = false then
                  revealF f t q
                else t) s2
          else s2
        checkWin s3

/-- Fuel that the flood fill can never exhaust on a gridSize x gridSize
board: one more than the number of cells. -/
def fuelMax : Nat := gridSize * gridSize + 1

/-- The engine reveal operation: reveal_cell with always-sufficient fuel. -/
def reveal (s : GameState) (p : Pos) : GameState := revealF fuelMax s p

/-- toggle_flag from game.rs lines 156-165. -/
def toggleFlag (s : GameState) (p : Pos) : GameState :=
  if s.game_over = true ∨ s.won = true ∨ (s.grid p).is_revealed = true then s
  else
    let g1 := updateGrid s.grid p ({ s.grid p with is_flagged := !(s.grid p).is_flagged })
    checkWin { s with grid := g1 }

/-- One player action at the engine boundary. -/
inductive Move where
  | rev (p : Pos)
  | flg (p : Pos)

/-- Dispatch of one action to reveal_cell or toggle_flag. -/
def applyMove (s : GameState) : Move → GameState
  | .rev p => reveal s p
  | .flg p => toggleFlag s p

/-- A whole sequence of reveal / toggle-flag calls. -/
def applyMoves (s : GameState) (l : List Move) : GameState :=
  l.foldl applyMove s

/-- place_mines from game.rs lines 70-83.  The thread_rng draws are
modelled as an explicit stream of positions; an exhausted stream, the
case in which the source loop would keep drawing forever, yields none. -/
def placeMinesAux (g : Pos → Cell) (placed : Nat) : List Pos → Option (Pos → Cell)
  | [] => if placed < mineCount then none else some g
  | p :: rest =>
    if placed < mineCount then
      if (g p).is_mine = true then placeMinesAux g placed rest
      else placeMinesAux (updateGrid g p ({ g p with is_mine := true })) (placed + 1) rest
    else some g

/-- calculate_adjacent_mines from game.rs lines 86-103.  The source loop
writes only adjacent_mines and reads only is_mine, so the in-place update
is order-independent and is embedded pointwise. -/
def calculateAdjacentMines (g : Pos → Cell) : Pos → Cell := fun p =>
  if (g p).is_mine = true then g p
  else { g p with adjacent_mines := (adjacentCells p).countP fun q => (g q).is_mine }

/-- Row-major enumeration of all positions (the nested row/col loops). -/
def rowMajorCells : List Pos :=
  (List.finRange gridSize).flatMap fun r => (List.finRange gridSize).map fun c => (r, c)

/-- The scan of reveal_safe_starting_area (game.rs lines 42-67): return
at the first non-mine zero-adjacency cell, otherwise keep the first cell
attaining the minimum adjacent_mines among non-mine cells, starting from
min_adjacent = 9 and min position (0, 0). -/
def chooseStartAux (g : Pos → Cell) : List Pos → Nat → Pos → Pos
  | [], _, mp => mp
  | p :: rest, ma, mp =>
    if (g p).is_mine = true then chooseStartAux g rest ma mp
    else if (g p).adjacent_mines = 0 then p
    else if (g p).adjacent_mines < ma then chooseStartAux g rest (g p).adjacent_mines p
    else chooseStartAux g rest ma mp

/-- The cell reveal_safe_starting_area reveals. -/
def chooseStart (g : Pos → Cell) : Pos :=
  chooseStartAux g rowMajorCells 9 (⟨0, by decide⟩, ⟨0, by decide⟩)

/-- reveal_safe_starting_area reveals exactly the cell its scan selects
(both the early return and the fallback call reveal_cell on it). -/
def revealSafeStartingArea (s : GameState) : GameState :=
  reveal s (chooseStart s.grid)

/-- GameState::new from game.rs lines 20-39, parameterized by the random
stream that place_mines consumes: allocate default cells, place mines,
compute adjacency, set the counter to n*n - MINE_COUNT, then auto-reveal
the safe starting area. -/
def newGame (stream : List Pos) : Option GameState :=
  (placeMinesAux (fun _ => Cell.new) 0 stream).map fun g =>
    revealSafeStartingArea
      { grid := calculateAdjacentMines g
        game_over := false
        won := false
        unrevealed_non_mine_count := gridSize * gridSize - mineCount }

/-- States reachable from a successful construction by reveal and
toggle-flag calls. -/
inductive Reachable : GameState → Prop where
  | init (stream : List Pos) (s : GameState) :
      newGame stream = some s → Reachable s
  | rev (s : GameState) (p : Pos) : Reachable s → Reachable (reveal s p)
  | flg (s : GameState) (p : Pos) : Reachable s → Reachable (toggleFlag s p)

/-- Spec-side Moore neighborhood: q is one of the up-to-8 in-bounds cells
horizontally, vertically or diagonally adjacent to p. -/
def MooreNeighbor (p q : Pos) : Prop :=
  q ≠ p ∧ (q.1 : Int) ≤ (p.1 : Int) + 1 ∧ (p.1 : Int) ≤ (q.1 : Int) + 1 ∧
    (q.2 : Int) ≤ (p.2 : Int) + 1 ∧ (p.2 : Int) ≤ (q.2 : Int) + 1

instance (p q : Pos) : Decidable (MooreNeighbor p q) := by
  unfold MooreNeighbor; infer_instance

/-- Spec-side count of mine cells among the in-bounds Moore neighbors. -/
def neighborMineCount (g : Pos → Cell) (p : Pos) : Nat :=
  (Finset.univ.filter fun q : Pos => MooreNeighbor p q ∧ (g q).is_mine = true).card

/-- The adjacency invariant: every non-mine cell stores the exact number
of mine cells among its in-bounds Moore neighbors. -/
def AdjInv (g : Pos → Cell) : Prop :=
  ∀ p : Pos, (g p).is_mine = false → (g p).adjacent_mines = neighborMineCount g p

/-- The counter invariant: the maintained field equals the actual number
of unrevealed non-mine cells. -/
def CounterSync (s : GameState) : Prop :=
  s.unrevealed_non_mine_count = unrevealedSafe s.grid

/-- The win-flag invariant: won holds exactly when the counter is zero
and every mine is flagged. -/
def WinSync (s : GameState) : Prop :=
  s.won = true ↔ (s.unrevealed_non_mine_count = 0 ∧ AllMinesFlagged s.grid)

/-- The maximal connected zero-adjacency region through a starting cell:
cells joined to it by chains of adjacent cells all carrying
adjacent_mines = 0. -/
inductive ZeroReach (g : Pos → Cell) (p₀ : Pos) : Pos → Prop where
  | base : ZeroReach g p₀ p₀
  | step {p q : Pos} : ZeroReach g p₀ p → (g p).adjacent_mines = 0 →
      q ∈ adjacentCells p → (g q).adjacent_mines = 0 → ZeroReach g p₀ q

/-- The numbered border of the zero-adjacency region: cells with nonzero
adjacent_mines adjacent to some region cell. -/
def InBorder (g : Pos → Cell) (p₀ q : Pos) : Prop :=
  (∃ p, ZeroReach g p₀ p ∧ (g p).adjacent_mines = 0 ∧ q ∈ adjacentCells p) ∧
    (g q).adjacent_mines ≠ 0

/-- The neighbor-processing loop of reveal_cell lines 144-148: fold the
guarded recursive reveal over the collected adjacent cells. -/
def cascade (f : Nat) (s : GameState) (l : List Pos) : GameState :=
  l.foldl
    (fun t q =>
      if (t.grid q).is_revealed = false ∧ (t.grid q).is_flagged = false then
        revealF f t q
      else t) s

instance : NeZero gridSize := ⟨by decide⟩

/-- Convenient constructor for concrete positions. -/
def mkP (r c : Fin gridSize) : Pos := (r, c)

lemma cascade_nil (f : Nat) (s : GameState) : cascade f s [] = s := rfl

lemma cascade_cons (f : Nat) (s : GameState) (q : Pos) (l : List Pos) :
    cascade f s (q :: l) =
      cascade f
        (if (s.grid q).is_revealed = false ∧ (s.grid q).is_flagged = false then
          revealF f s q
        else s) l := rfl

lemma revealF_succ (f : Nat) (s : GameState) (p : Pos) :
    revealF (f + 1) s p =
      if s.game_over = true ∨ s.won = true ∨ (s.grid p).is_revealed = true ∨
          (s.grid p).is_flagged = true then s
      else
        let s1 : GameState :=
          { s with grid := updateGrid s.grid p ({ s.grid p with is_revealed := true }) }
        if (s1.grid p).is_mine = true then { s1 with game_over := true }
        else
          let s2 : GameState :=
            { s1 with unrevealed_non_mine_count := s1.unrevealed_non_mine_count - 1 }
          checkWin (if (s2.grid p).adjacent_mines = 0 then cascade f s2 (adjacentCells p) else s2) := by
  simp only [revealF, cascade]

lemma reveal_eq_revealF_succ (s : GameState) (p : Pos) :
    reveal s p = revealF (gridSize * gridSize + 1) s p := rfl

lemma revealF_noop (f : Nat) (s : GameState) (p : Pos)
    (h : s.game_over = true ∨ s.won = true ∨ (s.grid p).is_revealed = true ∨
      (s.grid p).is_flagged = true) :
    revealF f s p = s := by
  cases f with
  | zero => rfl
  | succ f => rw [revealF_succ, if_pos h]

lemma reveal_noop (s : GameState) (p : Pos)
    (h : s.game_over = true ∨ s.won = true ∨ (s.grid p).is_revealed = true ∨
      (s.grid p).is_flagged = true) :
    reveal s p = s :=
  revealF_noop fuelMax s p h

lemma toggleFlag_noop (s : GameState) (p : Pos)
    (h : s.game_over = true ∨ s.won = true ∨ (s.grid p).is_revealed = true) :
    toggleFlag s p = s := by
  unfold toggleFlag
  rw [if_pos h]

/-- A terminal state used as concrete input in witnesses. -/
def termState : GameState :=
  { grid := fun _ => Cell.new, game_over := true, won := false,
    unrevealed_non_mine_count := gridSize * gridSize }

/-- A non-terminal state with a single unrevealed mine at (0,0) and all
other cells revealed, used as concrete input in witnesses. -/
def wMineState : GameState :=
  { grid := fun p =>
      if p = mkP 0 0 then { Cell.new with is_mine := true }
      else { Cell.new with is_revealed := true }
    game_over := false, won := false, unrevealed_non_mine_count := 0 }

/-- Facts relating a state to the result of one reveal_cell call on it:
mine, flag and adjacency fields are untouched, revealedness only grows,
a won input is returned unchanged, a won output means the win condition
held, and the counter invariant is preserved. -/
def StepRel (t u : GameState) : Prop :=
  (∀ q : Pos,
      (u.grid q).is_mine = (t.grid q).is_mine ∧
      (u.grid q).is_flagged = (t.grid q).is_flagged ∧
      (u.grid q).adjacent_mines = (t.grid q).adjacent_mines ∧
      ((t.grid q).is_revealed = true → (u.grid q).is_revealed = true)) ∧
  (t.won = true → u = t) ∧
  (u.won = true → t.won = true ∨
    (u.unrevealed_non_mine_count = 0 ∧ AllMinesFlagged u.grid)) ∧
  (CounterSync t → CounterSync u)

lemma stepRel_refl (s : GameState) : StepRel s s :=
  ⟨fun _ => ⟨rfl, rfl, rfl, fun h => h⟩, fun _ => rfl, fun h => Or.inl h, fun h => h⟩

lemma stepRel_trans {a b c : GameState} (h1 : StepRel a b) (h2 : StepRel b c) :
    StepRel a c := by
  obtain ⟨fieldsAB, wonFreezeAB, wonSoundAB, syncAB⟩ := h1
  obtain ⟨fieldsBC, wonFreezeBC, wonSoundBC, syncBC⟩ := h2
  refine ⟨fun q => ?_, fun hw => ?_, fun hw => ?_, fun hc => syncBC (syncAB hc)⟩
  · obtain ⟨m1, f1, j1, r1⟩ := fieldsAB q
    obtain ⟨m2, f2, j2, r2⟩ := fieldsBC q
    exact ⟨m2.trans m1, f2.trans f1, j2.trans j1, fun h => r2 (r1 h)⟩
  · have hb : b = a := wonFreezeAB hw
    have hbw : b.won = true := by rw [hb]; exact hw
    rw [wonFreezeBC hbw, hb]
  · rcases wonSoundBC hw with hbw | hcond
    · rcases wonSoundAB hbw with haw | hbcond
      · exact Or.inl haw
      · have hcb : c = b := wonFreezeBC hbw
        rw [hcb]
        exact Or.inr hbcond
    · exact Or.inr hcond

lemma checkWin_grid (s : GameState) : (checkWin s).grid = s.grid := by
  unfold checkWin; split <;> rfl

lemma checkWin_game_over (s : GameState) : (checkWin s).game_over = s.game_over := by
  unfold checkWin; split <;> rfl

lemma checkWin_counter (s : GameState) :
    (checkWin s).unrevealed_non_mine_count = s.unrevealed_non_mine_count := by
  unfold checkWin; split <;> rfl

lemma checkWin_won_iff (s : GameState) :
    (checkWin s).won = true ↔
      s.won = true ∨ (s.unrevealed_non_mine_count = 0 ∧ AllMinesFlagged s.grid) := by
  unfold checkWin; split <;> simp_all

lemma checkWin_of_won (s : GameState) (h : s.won = true) : checkWin s = s := by
  unfold checkWin
  split
  · cases s; simp_all
  · rfl

lemma checkWin_stepRel (s : GameState) : StepRel s (checkWin s) := by
  refine ⟨fun q => ?_, checkWin_of_won s, fun hw => ?_, fun hc => ?_⟩
  · rw [checkWin_grid]; exact ⟨rfl, rfl, rfl, fun h => h⟩
  · rcases (checkWin_won_iff s).mp hw with h | h
    · exact Or.inl h
    · exact Or.inr (by rw [checkWin_counter, checkWin_grid]; exact h)
  · unfold CounterSync at *
    rw [checkWin_counter, checkWin_grid]; exact hc

/-- The grid after marking one cell revealed (line 111 of game.rs). -/
def revealedGrid (s : GameState) (p : Pos) : Pos → Cell :=
  updateGrid s.grid p ({ s.grid p with is_revealed := true })

/-- The state after revealing a safe cell and decrementing the counter
(lines 111 and 120 of game.rs). -/
def revealStep (s : GameState) (p : Pos) : GameState :=
  { s with grid := revealedGrid s p, unrevealed_non_mine_count := s.unrevealed_non_mine_count - 1 }

lemma revealF_succ_mine (f : Nat) (s : GameState) (p : Pos)
    (h : ¬(s.game_over = true ∨ s.won = true ∨ (s.grid p).is_revealed = true ∨
      (s.grid p).is_flagged = true))
    (hm : (s.grid p).is_mine = true) :
    revealF (f + 1) s p = { s with grid := revealedGrid s p, game_over := true } := by
  rw [revealF_succ, if_neg h]
  dsimp only
  rw [if_pos (show (updateGrid s.grid p ({ s.grid p with is_revealed := true }) p).is_mine = true
    by simp [updateGrid, hm])]
  rfl

lemma revealF_succ_safe (f : Nat) (s : GameState) (p : Pos)
    (h : ¬(s.game_over = true ∨ s.won = true ∨ (s.grid p).is_revealed = true ∨
      (s.grid p).is_flagged = true))
    (hm : (s.grid p).is_mine = false) :
    revealF (f + 1) s p =
      checkWin (if (s.grid p).adjacent_mines = 0 then
        cascade f (revealStep s p) (adjacentCells p)
      else revealStep s p) := by
  rw [revealF_succ, if_neg h]
  dsimp only
  rw [if_neg (show ¬(updateGrid s.grid p ({ s.grid p with is_revealed := true }) p).is_mine = true
    by simp [updateGrid, hm])]
  have hc : (updateGrid s.grid p ({ s.grid p with is_revealed := true }) p).adjacent_mines =
      (s.grid p).adjacent_mines := by simp [updateGrid]
  rw [hc]
  rfl

lemma unrevealedSafe_revealedGrid_mine (s : GameState) (p : Pos)
    (hm : (s.grid p).is_mine = true) :
    unrevealedSafe (revealedGrid s p) = unrevealedSafe s.grid := by
  unfold unrevealedSafe
  congr 1
  ext q
  by_cases hq : q = p
  · subst hq; simp [revealedGrid, updateGrid, hm]
  · simp [revealedGrid, updateGrid, hq]

lemma mem_unrevealedSafe_filter (s : GameState) (p : Pos)
    (hm : (s.grid p).is_mine = false) (hr : (s.grid p).is_revealed = false) :
    p ∈ Finset.univ.filter fun q : Pos =>
      (s.grid q).is_mine = false ∧ (s.grid q).is_revealed = false := by
  simp [hm, hr]

lemma unrevealedSafe_pos (s : GameState) (p : Pos)
    (hm : (s.grid p).is_mine = false) (hr : (s.grid p).is_revealed = false) :
    1 ≤ unrevealedSafe s.grid := by
  unfold unrevealedSafe
  have := mem_unrevealedSafe_filter s p hm hr
  exact Finset.card_pos.mpr ⟨p, this⟩

lemma unrevealedSafe_revealedGrid_safe (s : GameState) (p : Pos)
    (hm : (s.grid p).is_mine = false) (hr : (s.grid p).is_revealed = false) :
    unrevealedSafe (revealedGrid s p) = unrevealedSafe s.grid - 1 := by
  unfold unrevealedSafe
  have hset : (Finset.univ.filter fun q : Pos =>
      (revealedGrid s p q).is_mine = false ∧ (revealedGrid s p q).is_revealed = false) =
      (Finset.univ.filter fun q : Pos =>
        (s.grid q).is_mine = false ∧ (s.grid q).is_revealed = false).erase p := by
    ext q
    by_cases hq : q = p
    · subst hq; simp [revealedGrid, updateGrid]
    · simp [revealedGrid, updateGrid, hq, Finset.mem_erase]
  rw [hset, Finset.card_erase_of_mem (mem_unrevealedSafe_filter s p hm hr)]

lemma revealStep_stepRel (s : GameState) (p : Pos)
    (hwon : s.won = false)
    (hrev : (s.grid p).is_revealed = false)
    (hm : (s.grid p).is_mine = false) :
    StepRel s (revealStep s p) := by
  refine ⟨fun q => ?_, fun hw => ?_, fun hw => ?_, fun hc => ?_⟩
  · by_cases hq : q = p
    · subst hq
      refine ⟨?_, ?_, ?_, ?_⟩ <;> simp [revealStep, revealedGrid, updateGrid]
    · refine ⟨?_, ?_, ?_, ?_⟩ <;> simp [revealStep, revealedGrid, updateGrid, hq]
  · rw [hwon] at hw; cases hw
  · exact Or.inl hw
  · unfold CounterSync at *
    have hdec := unrevealedSafe_revealedGrid_safe s p hm hrev
    have hpos := unrevealedSafe_pos s p hm hrev
    show s.unrevealed_non_mine_count - 1 = unrevealedSafe (revealedGrid s p)
    omega

lemma cascade_stepRel (f : Nat) (ih : ∀ t q, StepRel t (revealF f t q)) :
    ∀ (l : List Pos) (t : GameState), StepRel t (cascade f t l) := by
  intro l
  induction l with
  | nil => intro t; exact stepRel_refl t
  | cons q rest ihl =>
    intro t
    rw [cascade_cons]
    refine stepRel_trans ?_ (ihl _)
    split
    · exact ih t q
    · exact stepRel_refl t

lemma revealF_stepRel (f : Nat) : ∀ (s : GameState) (p : Pos), StepRel s (revealF f s p) := by
  induction f with
  | zero => intro s p; exact stepRel_refl s
  | succ f ih =>
    intro s p
    by_cases h : s.game_over = true ∨ s.won = true ∨ (s.grid p).is_revealed = true ∨
      (s.grid p).is_flagged = true
    · rw [revealF_noop _ s p h]; exact stepRel_refl s
    · simp only [not_or, Bool.not_eq_true] at h
      obtain ⟨hgo, hwon, hrev, hflag⟩ := h
      have h' : ¬(s.game_over = true ∨ s.won = true ∨ (s.grid p).is_revealed = true ∨
          (s.grid p).is_flagged = true) := by simp [hgo, hwon, hrev, hflag]
      by_cases hm : (s.grid p).is_mine = true
      · rw [revealF_succ_mine f s p h' hm]
        refine ⟨fun q => ?_, fun hw => ?_, fun hw => ?_, fun hc => ?_⟩
        · by_cases hq : q = p
          · subst hq
            refine ⟨?_, ?_, ?_, ?_⟩ <;> simp [revealedGrid, updateGrid]
          · refine ⟨?_, ?_, ?_, ?_⟩ <;> simp [revealedGrid, updateGrid, hq]
        · rw [hwon] at hw; cases hw
        · exact Or.inl hw
        · unfold CounterSync at *
          show s.unrevealed_non_mine_count = unrevealedSafe (revealedGrid s p)
          rw [unrevealedSafe_revealedGrid_mine s p hm]
          exact hc
      · have hm' : (s.grid p).is_mine = false := Bool.not_eq_true _ ▸ hm
        rw [revealF_succ_safe f s p h' hm']
        refine stepRel_trans (stepRel_trans
          (revealStep_stepRel s p hwon hrev hm') ?_) (checkWin_stepRel _)
        split
        · exact cascade_stepRel f ih (adjacentCells p) (revealStep s p)
        · exact stepRel_refl _

lemma reveal_stepRel (s : GameState) (p : Pos) : StepRel s (reveal s p) :=
  revealF_stepRel fuelMax s p

/-- C9: reveal leaves the whole engine state unchanged whenever the game
is over, is won, the target cell is already revealed, or the target cell
is flagged; toggleFlag leaves it unchanged whenever the game is over, is
won, or the target cell is already revealed. -/
theorem c9_silent_noop (s : GameState) (p : Pos) :
    ((s.game_over = true ∨ s.won = true ∨ (s.grid p).is_revealed = true ∨
        (s.grid p).is_flagged = true) → reveal s p = s) ∧
    ((s.game_over = true ∨ s.won = true ∨ (s.grid p).is_revealed = true) →
        toggleFlag s p = s) :=
  ⟨fun h => reveal_noop s p h, fun h => toggleFlag_noop s p h⟩

/-- Witness for c9_silent_noop at a concrete terminal state. -/
theorem c9_silent_noop_witness :
    reveal termState (mkP 0 0) = termState ∧ toggleFlag termState (mkP 0 0) = termState :=
  ⟨(c9_silent_noop termState (mkP 0 0)).1 (Or.inl rfl),
    (c9_silent_noop termState (mkP 0 0)).2 (Or.inl rfl)⟩

/-- C5: once game_over or won is true, every sequence of reveal and
toggle-flag calls, of any length and any coordinates, returns the state
unchanged, cells and aggregate fields alike. -/
theorem c5_terminal_freeze (s : GameState) (h : s.game_over = true ∨ s.won = true)
    (l : List Move) : applyMoves s l = s := by
  induction l with
  | nil => rfl
  | cons m rest ihl =>
    have hstep : applyMove s m = s := by
      cases m with
      | rev p =>
        refine reveal_noop s p ?_
        rcases h with h | h
        · exact Or.inl h
        · exact Or.inr (Or.inl h)
      | flg p =>
        refine toggleFlag_noop s p ?_
        rcases h with h | h
        · exact Or.inl h
        · exact Or.inr (Or.inl h)
    show List.foldl applyMove (applyMove s m) rest = s
    rw [hstep]
    exact ihl

/-- Witness for c5_terminal_freeze at a concrete terminal state and a
concrete call sequence. -/
theorem c5_terminal_freeze_witness :
    applyMoves termState [Move.rev (mkP 0 0), Move.flg (mkP 1 1)] = termState :=
  c5_terminal_freeze termState (Or.inl rfl) _

/-- C3: revealing an in-bounds unrevealed unflagged mine cell in a
non-terminal state sets game_over, marks only that one cell revealed
with no cascade, and leaves the unrevealed-safe counter, the won flag
and every other cell unchanged. -/
theorem c3_mine_loss (s : GameState) (p : Pos)
    (hgo : s.game_over = false) (hwon : s.won = false)
    (hrev : (s.grid p).is_revealed = false) (hflag : (s.grid p).is_flagged = false)
    (hm : (s.grid p).is_mine = true) :
    (reveal s p).game_over = true ∧
    (reveal s p).won = s.won ∧
    (reveal s p).unrevealed_non_mine_count = s.unrevealed_non_mine_count ∧
    (reveal s p).grid p = { s.grid p with is_revealed := true } ∧
    ∀ q : Pos, q ≠ p → (reveal s p).grid q = s.grid q := by
  have h' : ¬(s.game_over = true ∨ s.won = true ∨ (s.grid p).is_revealed = true ∨
      (s.grid p).is_flagged = true) := by simp [hgo, hwon, hrev, hflag]
  rw [reveal_eq_revealF_succ, revealF_succ_mine _ s p h' hm]
  refine ⟨rfl, rfl, rfl, ?_, fun q hq => ?_⟩
  · simp [revealedGrid, updateGrid]
  · simp [revealedGrid, updateGrid, hq]

/-- Witness for c3_mine_loss at a concrete state with a mine at (0,0). -/
theorem c3_mine_loss_witness :
    (reveal wMineState (mkP 0 0)).game_over = true ∧
    (reveal wMineState (mkP 0 0)).grid (mkP 1 1) = wMineState.grid (mkP 1 1) := by
  have h := c3_mine_loss wMineState (mkP 0 0) rfl rfl (by decide) (by decide) (by decide)
  exact ⟨h.1, h.2.2.2.2 (mkP 1 1) (by decide)⟩

lemma toggleFlag_cell (s : GameState) (p q : Pos) :
    ((toggleFlag s p).grid q).is_mine = (s.grid q).is_mine ∧
    ((toggleFlag s p).grid q).is_revealed = (s.grid q).is_revealed ∧
    ((toggleFlag s p).grid q).adjacent_mines = (s.grid q).adjacent_mines := by
  unfold toggleFlag
  split
  · exact ⟨rfl, rfl, rfl⟩
  · dsimp only
    rw [checkWin_grid]
    by_cases hq : q = p
    · subst hq
      refine ⟨?_, ?_, ?_⟩ <;> simp [updateGrid]
    · refine ⟨?_, ?_, ?_⟩ <;> simp [updateGrid, hq]

lemma applyMoves_cell (s : GameState) (l : List Move) (q : Pos) :
    ((applyMoves s l).grid q).is_mine = (s.grid q).is_mine ∧
    ((applyMoves s l).grid q).adjacent_mines = (s.grid q).adjacent_mines := by
  induction l generalizing s with
  | nil => exact ⟨rfl, rfl⟩
  | cons m rest ihl =>
    have hstep : ((applyMove s m).grid q).is_mine = (s.grid q).is_mine ∧
        ((applyMove s m).grid q).adjacent_mines = (s.grid q).adjacent_mines := by
      cases m with
      | rev p =>
        obtain ⟨A, -, -, -⟩ := reveal_stepRel s p
        exact ⟨(A q).1, (A q).2.2.1⟩
      | flg p =>
        obtain ⟨h1, -, h3⟩ := toggleFlag_cell s p q
        exact ⟨h1, h3⟩
    have := ihl (applyMove s m)
    show (((rest.foldl applyMove (applyMove s m))).grid q).is_mine = _ ∧ _
    exact ⟨this.1.trans hstep.1, this.2.trans hstep.2⟩

lemma mineCard_congr (g g' : Pos → Cell) (h : ∀ q, (g' q).is_mine = (g q).is_mine) :
    mineCard g' = mineCard g := by
  unfold mineCard
  congr 1
  ext q
  simp [h q]

lemma mineCard_update_mine (g : Pos → Cell) (p : Pos) (hm : (g p).is_mine = false) :
    mineCard (updateGrid g p ({ g p with is_mine := true })) = mineCard g + 1 := by
  unfold mineCard
  have hset : (Finset.univ.filter fun q : Pos =>
      (updateGrid g p ({ g p with is_mine := true }) q).is_mine = true) =
      insert p (Finset.univ.filter fun q : Pos => (g q).is_mine = true) := by
    ext q
    by_cases hq : q = p
    · subst hq; simp [updateGrid]
    · simp [updateGrid, hq]
  rw [hset, Finset.card_insert_of_not_mem (by simp [hm])]

lemma placeMinesAux_mineCard :
    ∀ (stream : List Pos) (g : Pos → Cell) (placed : Nat) (g' : Pos → Cell),
      mineCard g = placed → placed ≤ mineCount →
      placeMinesAux g placed stream = some g' → mineCard g' = mineCount := by
  intro stream
  induction stream with
  | nil =>
    intro g placed g' hcard hle hsome
    unfold placeMinesAux at hsome
    split at hsome
    · cases hsome
    · cases hsome
      omega
  | cons p rest ihs =>
    intro g placed g' hcard hle hsome
    unfold placeMinesAux at hsome
    split at hsome
    · split at hsome
      · exact ihs g placed g' hcard hle hsome
      · next hmine =>
          refine ihs _ (placed + 1) g' ?_ (by omega) hsome
          have hm : (g p).is_mine = false := Bool.not_eq_true _ ▸ hmine
          rw [mineCard_update_mine g p hm, hcard]
    · cases hsome
      omega

lemma mineCard_base : mineCard (fun _ : Pos => Cell.new) = 0 := by
  unfold mineCard Cell.new
  simp

lemma calculateAdjacentMines_mine (g : Pos → Cell) (q : Pos) :
    (calculateAdjacentMines g q).is_mine = (g q).is_mine := by
  unfold calculateAdjacentMines
  split <;> rfl

lemma newGame_some (stream : List Pos) (st : GameState) (h : newGame stream = some st) :
    ∃ g, placeMinesAux (fun _ => Cell.new) 0 stream = some g ∧
      st = revealSafeStartingArea
        { grid := calculateAdjacentMines g
          game_over := false
          won := false
          unrevealed_non_mine_count := gridSize * gridSize - mineCount } := by
  unfold newGame at h
  rcases Option.map_eq_some'.mp h with ⟨g, hg, hst⟩
  exact ⟨g, hg, hst.symm⟩

lemma mineCard_revealSafe (s : GameState) :
    mineCard (revealSafeStartingArea s).grid = mineCard s.grid := by
  have A := (reveal_stepRel s (chooseStart s.grid)).1
  exact mineCard_congr s.grid (revealSafeStartingArea s).grid fun q => (A q).1

lemma newGame_mineCard (stream : List Pos) (st : GameState) (h : newGame stream = some st) :
    mineCard st.grid = mineCount := by
  obtain ⟨g, hg, hst⟩ := newGame_some stream st h
  have hbase : mineCard g = mineCount :=
    placeMinesAux_mineCard stream (fun _ => Cell.new) 0 g mineCard_base (by decide) hg
  subst hst
  rw [mineCard_revealSafe]
  exact (mineCard_congr g _ fun q => calculateAdjacentMines_mine g q).trans hbase

/-- C7: after a successful construction exactly MINE_COUNT cells are
mines, and every subsequent sequence of reveal and toggle-flag calls
keeps that count unchanged. -/
theorem c7_mine_count (stream : List Pos) (st : GameState)
    (h : newGame stream = some st) (l : List Move) :
    mineCard st.grid = mineCount ∧ mineCard (applyMoves st l).grid = mineCount := by
  have hst := newGame_mineCard stream st h
  refine ⟨hst, ?_⟩
  exact (mineCard_congr st.grid (applyMoves st l).grid
    fun q => (applyMoves_cell st l q).1).trans hst

/-- Concrete random stream placing the 15 mines on a lattice that leaves
(9,9) as the unique zero-adjacency cell; used as input in witnesses. -/
def wStream : List Pos :=
  [mkP 1 1, mkP 1 4, mkP 1 7, mkP 4 1, mkP 4 4, mkP 4 7, mkP 7 1, mkP 7 4, mkP 7 7,
   mkP 9 1, mkP 9 4, mkP 9 7, mkP 1 9, mkP 4 9, mkP 7 9]

/-- The game constructed from wStream. -/
def wState : GameState := (newGame wStream).get (by decide)

lemma newGame_wStream : newGame wStream = some wState := (Option.some_get _).symm

/-- Witness for c7_mine_count at the concrete stream wStream. -/
theorem c7_mine_count_witness :
    mineCard wState.grid = mineCount ∧
      mineCard (applyMoves wState [Move.flg (mkP 0 0)]).grid = mineCount :=
  c7_mine_count wStream wState newGame_wStream [Move.flg (mkP 0 0)]

lemma unrevealedSafe_congr (g g' : Pos → Cell)
    (h : ∀ q, (g' q).is_mine = (g q).is_mine ∧ (g' q).is_revealed = (g q).is_revealed) :
    unrevealedSafe g' = unrevealedSafe g := by
  unfold unrevealedSafe
  congr 1
  ext q
  simp [(h q).1, (h q).2]

lemma toggleFlag_counterSync (s : GameState) (p : Pos) (h : CounterSync s) :
    CounterSync (toggleFlag s p) := by
  unfold CounterSync at *
  have hc : ∀ q, ((toggleFlag s p).grid q).is_mine = (s.grid q).is_mine ∧
      ((toggleFlag s p).grid q).is_revealed = (s.grid q).is_revealed :=
    fun q => ⟨(toggleFlag_cell s p q).1, (toggleFlag_cell s p q).2.1⟩
  rw [unrevealedSafe_congr s.grid _ hc]
  have hcount : (toggleFlag s p).unrevealed_non_mine_count = s.unrevealed_non_mine_count := by
    unfold toggleFlag
    split
    · rfl
    · dsimp only
      rw [checkWin_counter]
  rw [hcount]
  exact h

lemma placeMinesAux_fields :
    ∀ (stream : List Pos) (g : Pos → Cell) (placed : Nat) (g' : Pos → Cell),
      placeMinesAux g placed stream = some g' →
      ∀ q, (g' q).is_revealed = (g q).is_revealed ∧ (g' q).is_flagged = (g q).is_flagged := by
  intro stream
  induction stream with
  | nil =>
    intro g placed g' hsome q
    unfold placeMinesAux at hsome
    split at hsome
    · cases hsome
    · cases hsome
      exact ⟨rfl, rfl⟩
  | cons p rest ihs =>
    intro g placed g' hsome q
    unfold placeMinesAux at hsome
    split at hsome
    · split at hsome
      · exact ihs g placed g' hsome q
      · have hrec := ihs _ (placed + 1) g' hsome q
        refine ⟨hrec.1.trans ?_, hrec.2.trans ?_⟩
        · by_cases hq : q = p
          · subst hq; simp [updateGrid]
          · simp [updateGrid, hq]
        · by_cases hq : q = p
          · subst hq; simp [updateGrid]
          · simp [updateGrid, hq]
    · cases hsome
      exact ⟨rfl, rfl⟩

lemma calculateAdjacentMines_fields (g : Pos → Cell) (q : Pos) :
    (calculateAdjacentMines g q).is_revealed = (g q).is_revealed ∧
    (calculateAdjacentMines g q).is_flagged = (g q).is_flagged := by
  unfold calculateAdjacentMines
  split <;> exact ⟨rfl, rfl⟩

lemma unrevealedSafe_of_all_unrevealed (g : Pos → Cell)
    (h : ∀ q, (g q).is_revealed = false) :
    unrevealedSafe g = Fintype.card Pos - mineCard g := by
  unfold unrevealedSafe mineCard
  have hset : (Finset.univ.filter fun p : Pos =>
      (g p).is_mine = false ∧ (g p).is_revealed = false) =
      Finset.univ \ (Finset.univ.filter fun p : Pos => (g p).is_mine = true) := by
    ext q
    simp [h q, Finset.mem_sdiff]
  rw [hset, Finset.card_sdiff (Finset.filter_subset _ _)]
  rfl

lemma newGame_counterSync (stream : List Pos) (st : GameState)
    (h : newGame stream = some st) : CounterSync st := by
  obtain ⟨g, hg, hst⟩ := newGame_some stream st h
  have hmines : mineCard g = mineCount :=
    placeMinesAux_mineCard stream (fun _ => Cell.new) 0 g mineCard_base (by decide) hg
  have hunrev : ∀ q, (calculateAdjacentMines g q).is_revealed = false := by
    intro q
    rw [(calculateAdjacentMines_fields g q).1,
      (placeMinesAux_fields stream (fun _ => Cell.new) 0 g hg q).1]
    rfl
  have hsafe : unrevealedSafe (calculateAdjacentMines g) =
      Fintype.card Pos - mineCard (calculateAdjacentMines g) :=
    unrevealedSafe_of_all_unrevealed _ hunrev
  have hmines' : mineCard (calculateAdjacentMines g) = mineCount :=
    (mineCard_congr g _ fun q => calculateAdjacentMines_mine g q).trans hmines
  have hcardPos : Fintype.card Pos = gridSize * gridSize := by
    simp [Fintype.card_prod]
  subst hst
  have hpre : CounterSync
      { grid := calculateAdjacentMines g, game_over := false, won := false,
        unrevealed_non_mine_count := gridSize * gridSize - mineCount } := by
    unfold CounterSync
    show gridSize * gridSize - mineCount = unrevealedSafe (calculateAdjacentMines g)
    rw [hsafe, hmines', hcardPos]
  exact (reveal_stepRel _ _).2.2.2 hpre

lemma reachable_counterSync (s : GameState) (h : Reachable s) : CounterSync s := by
  induction h with
  | init stream s hs => exact newGame_counterSync stream s hs
  | rev s p hs ih => exact (reveal_stepRel s p).2.2.2 ih
  | flg s p hs ih => exact toggleFlag_counterSync s p ih

/-- C4: in every state reachable from construction by reveal and
toggle-flag calls, the unrevealed_non_mine_count field equals the number
of cells that are neither mines nor revealed; equivalently, it is
decremented exactly once per non-mine cell, at the moment that cell
first becomes revealed. -/
theorem c4_counter_invariant (s : GameState) (h : Reachable s) :
    s.unrevealed_non_mine_count = unrevealedSafe s.grid :=
  reachable_counterSync s h

/-- Witness for c4_counter_invariant at the concrete constructed game. -/
theorem c4_counter_invariant_witness :
    wState.unrevealed_non_mine_count = unrevealedSafe wState.grid :=
  c4_counter_invariant wState (Reachable.init wStream wState newGame_wStream)

lemma mem_adjacentCells (p q : Pos) : q ∈ adjacentCells p ↔ MooreNeighbor p q := by
  obtain ⟨pr, pc⟩ := p
  obtain ⟨qr, qc⟩ := q
  unfold adjacentCells deltas MooreNeighbor
  simp only [List.mem_filterMap, List.mem_cons, List.not_mem_nil, or_false]
  constructor
  · rintro ⟨d, hd, hsome⟩
    split at hsome
    case isTrue hcond =>
      obtain ⟨h1, h2, h3, h4⟩ := hcond
      injection hsome with hsome
      rw [Prod.ext_iff] at hsome
      obtain ⟨hr, hc⟩ := hsome
      rw [Fin.ext_iff] at hr hc
      dsimp only at hr hc
      rcases hd with h|h|h|h|h|h|h|h <;> subst h <;>
        dsimp only at hr hc h1 h2 h3 h4 <;>
        refine ⟨?_, ?_, ?_, ?_, ?_⟩ <;>
        first
          | omega
          | (simp only [ne_eq, Prod.mk.injEq, Fin.ext_iff, not_and]; omega)
    case isFalse => cases hsome
  · rintro ⟨hne, hb1, hb2, hb3, hb4⟩
    have hne' : ¬((qr : Nat) = (pr : Nat) ∧ (qc : Nat) = (pc : Nat)) := by
      rintro ⟨h1, h2⟩
      exact hne (by simp [Prod.ext_iff, Fin.ext_iff, h1, h2])
    refine ⟨(((qr : Nat) : Int) - ((pr : Nat) : Int),
      ((qc : Nat) : Int) - ((pc : Nat) : Int)), ?_, ?_⟩
    · simp only [List.mem_cons, List.not_mem_nil, or_false, Prod.mk.injEq]
      omega
    · rw [dif_pos (by dsimp only; refine ⟨by omega, by omega, by omega, by omega⟩)]
      simp only [Option.some.injEq, Prod.ext_iff, Fin.ext_iff]
      try dsimp only
      constructor <;> omega

lemma adjacentCells_nodup : ∀ p : Pos, (adjacentCells p).Nodup := by decide

lemma countP_eq_card (l : List Pos) (hl : l.Nodup) (pr : Pos → Bool) :
    l.countP pr = (Finset.univ.filter fun q : Pos => q ∈ l ∧ pr q = true).card := by
  rw [List.countP_eq_length_filter]
  have hnd : (l.filter pr).Nodup := hl.filter pr
  rw [← List.toFinset_card_of_nodup hnd]
  congr 1
  ext q
  simp [List.mem_filter]

lemma adj_countP_eq_neighborMineCount (g : Pos → Cell) (p : Pos) :
    ((adjacentCells p).countP fun q => (g q).is_mine) = neighborMineCount g p := by
  rw [countP_eq_card _ (adjacentCells_nodup p)]
  unfold neighborMineCount
  congr 1
  ext q
  simp [mem_adjacentCells]

lemma neighborMineCount_congr (g g' : Pos → Cell)
    (h : ∀ q, (g' q).is_mine = (g q).is_mine) (p : Pos) :
    neighborMineCount g' p = neighborMineCount g p := by
  unfold neighborMineCount
  congr 1
  ext q
  simp [h q]

lemma adjInv_congr (g g' : Pos → Cell)
    (h : ∀ q, (g' q).is_mine = (g q).is_mine ∧ (g' q).adjacent_mines = (g q).adjacent_mines) :
    AdjInv g → AdjInv g' := by
  intro hinv p hp
  have hm : (g p).is_mine = false := ((h p).1).symm.trans hp
  rw [(h p).2, hinv p hm]
  exact (neighborMineCount_congr g g' (fun q => (h q).1) p).symm

lemma calculateAdjacentMines_adjInv (g : Pos → Cell) :
    AdjInv (calculateAdjacentMines g) := by
  intro p hp
  have hp' : (g p).is_mine = false := by
    rw [← calculateAdjacentMines_mine g p]; exact hp
  have hL : (calculateAdjacentMines g p).adjacent_mines =
      (adjacentCells p).countP fun q => (g q).is_mine := by
    unfold calculateAdjacentMines
    rw [if_neg (by simp [hp'])]
  rw [hL, adj_countP_eq_neighborMineCount g p]
  exact (neighborMineCount_congr g _ (fun q => calculateAdjacentMines_mine g q) p).symm

lemma revealSafe_fields (s : GameState) (q : Pos) :
    ((revealSafeStartingArea s).grid q).is_mine = (s.grid q).is_mine ∧
    ((revealSafeStartingArea s).grid q).is_flagged = (s.grid q).is_flagged ∧
    ((revealSafeStartingArea s).grid q).adjacent_mines = (s.grid q).adjacent_mines := by
  obtain ⟨A, -, -, -⟩ := reveal_stepRel s (chooseStart s.grid)
  exact ⟨(A q).1, (A q).2.1, (A q).2.2.1⟩

lemma newGame_adjInv (stream : List Pos) (st : GameState)
    (h : newGame stream = some st) : AdjInv st.grid := by
  obtain ⟨g, hg, hst⟩ := newGame_some stream st h
  subst hst
  refine adjInv_congr (calculateAdjacentMines g) _ ?_ (calculateAdjacentMines_adjInv g)
  intro q
  exact ⟨(revealSafe_fields _ q).1, (revealSafe_fields _ q).2.2⟩

/-- C6: immediately after construction and after every sequence of reveal
and toggle-flag calls, each non-mine cell's adjacent_mines equals the
exact number of mine cells among its in-bounds Moore neighbors, and the
operations never alter any adjacent_mines value. -/
theorem c6_adjacency (stream : List Pos) (st : GameState)
    (h : newGame stream = some st) (l : List Move) :
    AdjInv (applyMoves st l).grid ∧
    ∀ q : Pos, ((applyMoves st l).grid q).adjacent_mines = (st.grid q).adjacent_mines := by
  have hst := newGame_adjInv stream st h
  exact ⟨adjInv_congr st.grid _
      (fun q => ⟨(applyMoves_cell st l q).1, (applyMoves_cell st l q).2⟩) hst,
    fun q => (applyMoves_cell st l q).2⟩

/-- Witness for c6_adjacency at the concrete constructed game. -/
theorem c6_adjacency_witness :
    ((applyMoves wState [Move.flg (mkP 0 0)]).grid (mkP 0 1)).adjacent_mines =
      (wState.grid (mkP 0 1)).adjacent_mines :=
  (c6_adjacency wStream wState newGame_wStream [Move.flg (mkP 0 0)]).2 (mkP 0 1)

/-- The scan predicate of the first loop phase: a non-mine cell with zero
adjacent mines. -/
def zeroSafe (g : Pos → Cell) (q : Pos) : Bool :=
  !(g q).is_mine && (g q).adjacent_mines == 0

lemma chooseStartAux_find_zero (g : Pos → Cell) :
    ∀ (l : List Pos) (ma : Nat) (mp p : Pos),
      l.find? (zeroSafe g) = some p → chooseStartAux g l ma mp = p := by
  intro l
  induction l with
  | nil => intro ma mp p h; cases h
  | cons q rest ihl =>
    intro ma mp p h
    by_cases hq : zeroSafe g q = true
    · rw [List.find?_cons_of_pos _ hq] at h
      injection h with h
      subst h
      have hq' := hq
      unfold zeroSafe at hq'
      simp only [Bool.and_eq_true, Bool.not_eq_true', beq_iff_eq] at hq'
      simp only [chooseStartAux]
      rw [if_neg (by simp [hq'.1]), if_pos hq'.2]
    · rw [List.find?_cons_of_neg _ hq] at h
      unfold zeroSafe at hq
      simp only [Bool.and_eq_true, Bool.not_eq_true', beq_iff_eq, not_and] at hq
      by_cases hm : (g q).is_mine = true
      · simp only [chooseStartAux]
        rw [if_pos hm]
        exact ihl ma mp p h
      · have hm' : (g q).is_mine = false := Bool.not_eq_true _ ▸ hm
        have ha : (g q).adjacent_mines ≠ 0 := hq hm'
        simp only [chooseStartAux]
        rw [if_neg hm, if_neg ha]
        split
        · exact ihl _ q p h
        · exact ihl ma mp p h

lemma chooseStartAux_min (g : Pos → Cell) :
    ∀ (l : List Pos) (ma : Nat) (mp : Pos),
      (∀ q ∈ l, (g q).is_mine = false → (g q).adjacent_mines ≠ 0) →
      (chooseStartAux g l ma mp = mp ∧
        ∀ q ∈ l, (g q).is_mine = false → ma ≤ (g q).adjacent_mines)
      ∨ (∃ r l₁ l₂, chooseStartAux g l ma mp = r ∧ l = l₁ ++ r :: l₂ ∧
          (g r).is_mine = false ∧ (g r).adjacent_mines < ma ∧
          (∀ q ∈ l₁, (g q).is_mine = false →
            (g r).adjacent_mines < (g q).adjacent_mines) ∧
          (∀ q ∈ l₂, (g q).is_mine = false →
            (g r).adjacent_mines ≤ (g q).adjacent_mines)) := by
  intro l
  induction l with
  | nil =>
    intro ma mp hz
    left
    exact ⟨rfl, by intro q hq; cases hq⟩
  | cons q rest ihl =>
    intro ma mp hz
    by_cases hqm : (g q).is_mine = true
    · have hstep : chooseStartAux g (q :: rest) ma mp = chooseStartAux g rest ma mp := by
        simp only [chooseStartAux]; rw [if_pos hqm]
      rw [hstep]
      rcases ihl ma mp (fun x hx => hz x (List.mem_cons_of_mem q hx)) with
        ⟨h1, h2⟩ | ⟨r, l₁, l₂, heq, hsplit, hrm, hrlt, hl₁, hl₂⟩
      · left
        refine ⟨h1, fun x hx hxm => ?_⟩
        rcases List.mem_cons.mp hx with hx | hx
        · subst hx; simp [hqm] at hxm
        · exact h2 x hx hxm
      · right
        refine ⟨r, q :: l₁, l₂, heq, by simp [hsplit], hrm, hrlt, fun x hx hxm => ?_, hl₂⟩
        rcases List.mem_cons.mp hx with hx | hx
        · subst hx; simp [hqm] at hxm
        · exact hl₁ x hx hxm
    · have hqm' : (g q).is_mine = false := Bool.not_eq_true _ ▸ hqm
      have hqa : (g q).adjacent_mines ≠ 0 := hz q (List.mem_cons_self q rest) hqm'
      have hstep : chooseStartAux g (q :: rest) ma mp =
          if (g q).adjacent_mines < ma then chooseStartAux g rest (g q).adjacent_mines q
          else chooseStartAux g rest ma mp := by
        simp only [chooseStartAux]; rw [if_neg hqm, if_neg hqa]
      rw [hstep]
      by_cases hlt : (g q).adjacent_mines < ma
      · rw [if_pos hlt]
        rcases ihl (g q).adjacent_mines q (fun x hx => hz x (List.mem_cons_of_mem q hx)) with
          ⟨h1, h2⟩ | ⟨r, l₁, l₂, heq, hsplit, hrm, hrlt, hl₁, hl₂⟩
        · right
          refine ⟨q, [], rest, h1, rfl, hqm', hlt, fun x hx => ?_, h2⟩
          cases hx
        · right
          refine ⟨r, q :: l₁, l₂, heq, by simp [hsplit], hrm, hrlt.trans hlt,
            fun x hx hxm => ?_, hl₂⟩
          rcases List.mem_cons.mp hx with hx | hx
          · subst hx; exact hrlt
          · exact hl₁ x hx hxm
      · rw [if_neg hlt]
        have hge : ma ≤ (g q).adjacent_mines := Nat.le_of_not_lt hlt
        rcases ihl ma mp (fun x hx => hz x (List.mem_cons_of_mem q hx)) with
          ⟨h1, h2⟩ | ⟨r, l₁, l₂, heq, hsplit, hrm, hrlt, hl₁, hl₂⟩
        · left
          refine ⟨h1, fun x hx hxm => ?_⟩
          rcases List.mem_cons.mp hx with hx | hx
          · subst hx; exact hge
          · exact h2 x hx hxm
        · right
          refine ⟨r, q :: l₁, l₂, heq, by simp [hsplit], hrm, hrlt, fun x hx hxm => ?_, hl₂⟩
          rcases List.mem_cons.mp hx with hx | hx
          · subst hx; exact Nat.lt_of_lt_of_le hrlt hge
          · exact hl₁ x hx hxm

lemma mem_rowMajorCells (p : Pos) : p ∈ rowMajorCells := by
  unfold rowMajorCells
  rw [List.mem_flatMap]
  refine ⟨p.1, List.mem_finRange p.1, ?_⟩
  rw [List.mem_map]
  exact ⟨p.2, List.mem_finRange p.2, by simp⟩

lemma adjacentCells_length_le (p : Pos) : (adjacentCells p).length ≤ 8 := by
  unfold adjacentCells
  exact le_trans (List.length_filterMap_le _ _) (by decide)

lemma calculateAdjacentMines_bound (g : Pos → Cell) (p : Pos)
    (hm : (calculateAdjacentMines g p).is_mine = false) :
    (calculateAdjacentMines g p).adjacent_mines ≤ 8 := by
  have hm' : (g p).is_mine = false := by rw [← calculateAdjacentMines_mine g p]; exact hm
  have hL : (calculateAdjacentMines g p).adjacent_mines =
      (adjacentCells p).countP fun q => (g q).is_mine := by
    unfold calculateAdjacentMines
    rw [if_neg (by simp [hm'])]
  rw [hL]
  exact le_trans (List.countP_le_length _) (adjacentCells_length_le p)

lemma exists_nonmine (g : Pos → Cell) (h : mineCard g < Fintype.card Pos) :
    ∃ p : Pos, (g p).is_mine = false := by
  by_contra hc
  push_neg at hc
  have hall : ∀ p : Pos, (g p).is_mine = true := by
    intro p
    cases hb : (g p).is_mine
    · exact absurd hb (hc p)
    · rfl
  have hcard : mineCard g = Fintype.card Pos := by
    unfold mineCard
    rw [Finset.filter_true_of_mem fun x _ => hall x]
    exact Finset.card_univ
  omega

lemma chooseStart_spec (g : Pos → Cell)
    (hex : ∃ p : Pos, (g p).is_mine = false)
    (hbound : ∀ p : Pos, (g p).is_mine = false → (g p).adjacent_mines ≤ 8) :
    (g (chooseStart g)).is_mine = false ∧
    (∀ p : Pos, rowMajorCells.find? (zeroSafe g) = some p → chooseStart g = p) ∧
    (rowMajorCells.find? (zeroSafe g) = none →
      ∃ l₁ l₂, rowMajorCells = l₁ ++ chooseStart g :: l₂ ∧
        (∀ q ∈ l₁, (g q).is_mine = false →
          (g (chooseStart g)).adjacent_mines < (g q).adjacent_mines) ∧
        (∀ q : Pos, (g q).is_mine = false →
          (g (chooseStart g)).adjacent_mines ≤ (g q).adjacent_mines)) := by
  rcases hfind : rowMajorCells.find? (zeroSafe g) with _ | p
  · have hz : ∀ q ∈ rowMajorCells, (g q).is_mine = false → (g q).adjacent_mines ≠ 0 := by
      intro q hq hqm
      have hnq := List.find?_eq_none.mp hfind q hq
      unfold zeroSafe at hnq
      simp only [Bool.and_eq_true, Bool.not_eq_true', beq_iff_eq, not_and] at hnq
      exact hnq hqm
    rcases chooseStartAux_min g rowMajorCells 9 (⟨0, by decide⟩, ⟨0, by decide⟩) hz with
      ⟨h1, h2⟩ | ⟨r, l₁, l₂, heq, hsplit, hrm, hrlt, hl₁, hl₂⟩
    · obtain ⟨p0, hp0⟩ := hex
      have h9 := h2 p0 (mem_rowMajorCells p0) hp0
      have h8 := hbound p0 hp0
      omega
    · have hcs : chooseStart g = r := heq
      have hmin : ∀ q : Pos, (g q).is_mine = false →
          (g r).adjacent_mines ≤ (g q).adjacent_mines := by
        intro q hqm
        have hq := mem_rowMajorCells q
        rw [hsplit] at hq
        rcases List.mem_append.mp hq with hq | hq
        · exact Nat.le_of_lt (hl₁ q hq hqm)
        · rcases List.mem_cons.mp hq with hq | hq
          · subst hq; exact Nat.le_refl _
          · exact hl₂ q hq hqm
      refine ⟨by rw [hcs]; exact hrm, ?_, ?_⟩
      · intro p2 hp2; simp at hp2
      · intro _
        exact ⟨l₁, l₂, by rw [hcs]; exact hsplit, by rw [hcs]; exact hl₁,
          by rw [hcs]; exact hmin⟩
  · have hcs : chooseStart g = p := chooseStartAux_find_zero g rowMajorCells 9 _ p hfind
    have hzp := List.find?_some hfind
    unfold zeroSafe at hzp
    simp only [Bool.and_eq_true, Bool.not_eq_true', beq_iff_eq] at hzp
    refine ⟨by rw [hcs]; exact hzp.1, ?_, ?_⟩
    · intro p2 hp2
      injection hp2 with hp2
      rw [hcs, hp2]
    · intro hn; simp at hn

/-- A concrete grid with a single mine at (0,0), used as c8 witness input. -/
def wStartGrid : Pos → Cell := fun p =>
  if p = mkP 0 0 then { Cell.new with is_mine := true } else Cell.new


/-- C8: the construction scan selects, in row-major order, the first
non-mine cell with adjacent_mines = 0; when no such cell exists it
selects a non-mine cell whose adjacent_mines is globally minimal over
non-mine cells, the first such cell in row-major order on ties; the
selected cell is never a mine. -/
theorem c8_starting_cell (g : Pos → Cell)
    (hex : ∃ p : Pos, (g p).is_mine = false)
    (hbound : ∀ p : Pos, (g p).is_mine = false → (g p).adjacent_mines ≤ 8) :
    (g (chooseStart g)).is_mine = false ∧
    (∀ p : Pos, rowMajorCells.find? (zeroSafe g) = some p → chooseStart g = p) ∧
    (rowMajorCells.find? (zeroSafe g) = none →
      ∃ l₁ l₂, rowMajorCells = l₁ ++ chooseStart g :: l₂ ∧
        (∀ q ∈ l₁, (g q).is_mine = false →
          (g (chooseStart g)).adjacent_mines < (g q).adjacent_mines) ∧
        (∀ q : Pos, (g q).is_mine = false →
          (g (chooseStart g)).adjacent_mines ≤ (g q).adjacent_mines)) :=
  chooseStart_spec g hex hbound

/-- Witness for c8_starting_cell: the scan picks (0,1), the first
non-mine zero-adjacency cell of wStartGrid. -/
theorem c8_starting_cell_witness :
    (wStartGrid (chooseStart wStartGrid)).is_mine = false ∧
      chooseStart wStartGrid = mkP 0 1 :=
  ⟨(c8_starting_cell wStartGrid ⟨mkP 0 1, by decide⟩ (by decide)).1,
   (c8_starting_cell wStartGrid ⟨mkP 0 1, by decide⟩ (by decide)).2.1 (mkP 0 1) (by decide)⟩

lemma zero_adj_neighbors_nonmine (g : Pos → Cell) (hinv : AdjInv g) (p : Pos)
    (hm : (g p).is_mine = false) (hz : (g p).adjacent_mines = 0) :
    ∀ q ∈ adjacentCells p, (g q).is_mine = false := by
  intro q hq
  have hcount : neighborMineCount g p = 0 := by rw [← hinv p hm]; exact hz
  unfold neighborMineCount at hcount
  by_contra hc
  have hqm : (g q).is_mine = true := by
    cases hb : (g q).is_mine
    · exact absurd hb hc
    · rfl
  have hmem : q ∈ Finset.univ.filter
      fun x : Pos => MooreNeighbor p x ∧ (g x).is_mine = true := by
    simp [Finset.mem_filter, (mem_adjacentCells p q).mp hq, hqm]
  rw [Finset.card_eq_zero.mp hcount] at hmem
  exact absurd hmem (Finset.not_mem_empty q)

lemma revealF_no_go (f : Nat) : ∀ (s : GameState) (p : Pos),
    AdjInv s.grid → s.game_over = false → (s.grid p).is_mine = false →
    (revealF f s p).game_over = false := by
  induction f with
  | zero => intro s p _ hgo _; exact hgo
  | succ f ih =>
    intro s p hinv hgo hm
    by_cases hguard : s.game_over = true ∨ s.won = true ∨ (s.grid p).is_revealed = true ∨
      (s.grid p).is_flagged = true
    · rw [revealF_noop _ s p hguard]; exact hgo
    · rw [revealF_succ_safe f s p hguard hm, checkWin_game_over]
      have hfield0 : ∀ q, ((revealStep s p).grid q).is_mine = (s.grid q).is_mine ∧
          ((revealStep s p).grid q).adjacent_mines = (s.grid q).adjacent_mines := by
        intro q
        by_cases hq : q = p
        · subst hq; constructor <;> simp [revealStep, revealedGrid, updateGrid]
        · constructor <;> simp [revealStep, revealedGrid, updateGrid, hq]
      split
      next hz =>
        have hl : ∀ q ∈ adjacentCells p, (s.grid q).is_mine = false :=
          zero_adj_neighbors_nonmine s.grid hinv p hm hz
        have hcascade : ∀ (l : List Pos), (∀ q ∈ l, (s.grid q).is_mine = false) →
            ∀ t : GameState, t.game_over = false →
            (∀ q, (t.grid q).is_mine = (s.grid q).is_mine ∧
              (t.grid q).adjacent_mines = (s.grid q).adjacent_mines) →
            (cascade f t l).game_over = false ∧
            ∀ q, ((cascade f t l).grid q).is_mine = (s.grid q).is_mine ∧
              ((cascade f t l).grid q).adjacent_mines = (s.grid q).adjacent_mines := by
          intro l
          induction l with
          | nil => intro _ t htgo htf; exact ⟨htgo, htf⟩
          | cons q rest ihc =>
            intro hlq t htgo htf
            rw [cascade_cons]
            split
            · have hinvt : AdjInv t.grid := adjInv_congr s.grid t.grid htf hinv
              have hqm : (t.grid q).is_mine = false :=
                (htf q).1.trans (hlq q (List.mem_cons_self q rest))
              have hgo' := ih t q hinvt htgo hqm
              have hfields' : ∀ x, ((revealF f t q).grid x).is_mine = (s.grid x).is_mine ∧
                  ((revealF f t q).grid x).adjacent_mines = (s.grid x).adjacent_mines := by
                intro x
                obtain ⟨A, -, -, -⟩ := revealF_stepRel f t q
                exact ⟨((A x).1).trans (htf x).1, ((A x).2.2.1).trans (htf x).2⟩
              exact ihc (fun x hx => hlq x (List.mem_cons_of_mem q hx)) _ hgo' hfields'
            · exact ihc (fun x hx => hlq x (List.mem_cons_of_mem q hx)) t htgo htf
        exact (hcascade (adjacentCells p) hl (revealStep s p) hgo hfield0).1
      next => exact hgo

lemma card_Pos : Fintype.card Pos = gridSize * gridSize := by
  simp [Fintype.card_prod]

lemma exists_mine (g : Pos → Cell) (h : 0 < mineCard g) :
    ∃ p : Pos, (g p).is_mine = true := by
  unfold mineCard at h
  rcases Finset.card_pos.mp h with ⟨p, hp⟩
  exact ⟨p, (Finset.mem_filter.mp hp).2⟩

lemma newGame_flags (stream : List Pos) (st : GameState) (h : newGame stream = some st) :
    ∀ q, (st.grid q).is_flagged = false := by
  obtain ⟨g, hg, hst⟩ := newGame_some stream st h
  subst hst
  intro q
  exact ((revealSafe_fields _ q).2.1).trans
    (((calculateAdjacentMines_fields g q).2).trans
      ((placeMinesAux_fields stream _ 0 g hg q).2))

lemma newGame_not_terminal (stream : List Pos) (st : GameState)
    (h : newGame stream = some st) : st.game_over = false ∧ st.won = false := by
  obtain ⟨g, hg, hst⟩ := newGame_some stream st h
  have hmines : mineCard g = mineCount :=
    placeMinesAux_mineCard stream (fun _ => Cell.new) 0 g mineCard_base (by decide) hg
  have hmines' : mineCard (calculateAdjacentMines g) = mineCount :=
    (mineCard_congr g _ fun q => calculateAdjacentMines_mine g q).trans hmines
  have hex : ∃ p : Pos, (calculateAdjacentMines g p).is_mine = false := by
    refine exists_nonmine _ ?_
    rw [hmines', card_Pos]
    decide
  have hstart : ((calculateAdjacentMines g)
      (chooseStart (calculateAdjacentMines g))).is_mine = false :=
    (chooseStart_spec _ hex fun p hp => calculateAdjacentMines_bound g p hp).1
  subst hst
  have hgo : (revealSafeStartingArea
      { grid := calculateAdjacentMines g, game_over := false, won := false,
        unrevealed_non_mine_count := gridSize * gridSize - mineCount }).game_over = false :=
    revealF_no_go fuelMax _ _ (calculateAdjacentMines_adjInv g) rfl hstart
  refine ⟨hgo, ?_⟩
  by_contra hw
  have hw' : (revealSafeStartingArea
      { grid := calculateAdjacentMines g, game_over := false, won := false,
        unrevealed_non_mine_count := gridSize * gridSize - mineCount }).won = true := by
    cases hb : (revealSafeStartingArea
      { grid := calculateAdjacentMines g, game_over := false, won := false,
        unrevealed_non_mine_count := gridSize * gridSize - mineCount }).won
    · exact absurd hb hw
    · rfl
  rcases (reveal_stepRel
      { grid := calculateAdjacentMines g, game_over := false, won := false,
        unrevealed_non_mine_count := gridSize * gridSize - mineCount }
      (chooseStart (calculateAdjacentMines g))).2.2.1 hw' with hXw | ⟨-, hfl⟩
  · simp at hXw
  · have hpos : 0 < mineCard (revealSafeStartingArea
        { grid := calculateAdjacentMines g, game_over := false, won := false,
          unrevealed_non_mine_count := gridSize * gridSize - mineCount }).grid := by
      rw [mineCard_revealSafe]
      exact lt_of_lt_of_eq (by decide : (0 : Nat) < mineCount) hmines'.symm
    obtain ⟨pm, hpm⟩ := exists_mine _ hpos
    have hfq := hfl pm hpm
    have hfz := newGame_flags stream _ h pm
    exact Bool.noConfusion (hfz.symm.trans hfq)

/-- C10: in any state where the adjacency invariant holds, revealing a
non-mine cell never sets game_over, since the cascade only recurses from
zero-adjacency cells whose in-bounds neighbors are all non-mine; and a
successful construction always returns game_over = false and
won = false. -/
theorem c10_safe_reveal :
    (∀ (s : GameState) (p : Pos), AdjInv s.grid → s.game_over = false →
      (s.grid p).is_mine = false → (reveal s p).game_over = false) ∧
    (∀ (stream : List Pos) (st : GameState), newGame stream = some st →
      st.game_over = false ∧ st.won = false) :=
  ⟨fun s p hinv hgo hm => revealF_no_go fuelMax s p hinv hgo hm,
    fun stream st h => newGame_not_terminal stream st h⟩

/-- Witness for c10_safe_reveal at the concrete constructed game. -/
theorem c10_safe_reveal_witness :
    (reveal wState (mkP 0 0)).game_over = false ∧
      wState.game_over = false ∧ wState.won = false :=
  ⟨c10_safe_reveal.1 wState (mkP 0 0) (newGame_adjInv wStream wState newGame_wStream)
      (newGame_not_terminal wStream wState newGame_wStream).1 (by decide),
    c10_safe_reveal.2 wStream wState newGame_wStream⟩

lemma toggleFlag_not_guard (s : GameState) (p : Pos)
    (h : ¬(s.game_over = true ∨ s.won = true ∨ (s.grid p).is_revealed = true)) :
    toggleFlag s p = checkWin { s with grid := updateGrid s.grid p ({ s.grid p with is_flagged := !(s.grid p).is_flagged }) } := by
  unfold toggleFlag
  rw [if_neg h]

lemma winSync_reveal (s : GameState) (p : Pos) (hws : WinSync s) :
    WinSync (reveal s p) := by
  by_cases hguard : s.game_over = true ∨ s.won = true ∨ (s.grid p).is_revealed = true ∨
    (s.grid p).is_flagged = true
  · rw [reveal_noop s p hguard]; exact hws
  · have hcomp := hguard
    simp only [not_or, Bool.not_eq_true] at hcomp
    obtain ⟨hgo, hwon, hrev, hflag⟩ := hcomp
    by_cases hm : (s.grid p).is_mine = true
    · rw [reveal_eq_revealF_succ, revealF_succ_mine _ s p hguard hm]
      unfold WinSync
      constructor
      · intro hw
        exact absurd (show s.won = true from hw) (by simp [hwon])
      · rintro ⟨-, hfl⟩
        exfalso
        have hp := hfl p (by simp [revealedGrid, updateGrid, hm])
        simp [revealedGrid, updateGrid, hflag] at hp
    · have hm' : (s.grid p).is_mine = false := Bool.not_eq_true _ ▸ hm
      rw [reveal_eq_revealF_succ, revealF_succ_safe _ s p hguard hm']
      have hsr : StepRel (revealStep s p)
          (if (s.grid p).adjacent_mines = 0 then
            cascade (gridSize * gridSize) (revealStep s p) (adjacentCells p)
          else revealStep s p) := by
        split
        · exact cascade_stepRel _ (revealF_stepRel _) (adjacentCells p) (revealStep s p)
        · exact stepRel_refl _
      unfold WinSync
      rw [checkWin_counter, checkWin_grid]
      constructor
      · intro hw
        rcases (checkWin_won_iff _).mp hw with h1 | h1
        · rcases hsr.2.2.1 h1 with h2 | h2
          · exact absurd (show s.won = true from h2) (by simp [hwon])
          · exact h2
        · exact h1
      · intro hc
        exact (checkWin_won_iff _).mpr (Or.inr hc)

lemma winSync_toggle (s : GameState) (p : Pos) (hws : WinSync s) :
    WinSync (toggleFlag s p) := by
  by_cases hguard : s.game_over = true ∨ s.won = true ∨ (s.grid p).is_revealed = true
  · rw [toggleFlag_noop s p hguard]; exact hws
  · have hcomp := hguard
    simp only [not_or, Bool.not_eq_true] at hcomp
    obtain ⟨hgo, hwon, hrev⟩ := hcomp
    rw [toggleFlag_not_guard s p hguard]
    unfold WinSync
    rw [checkWin_counter, checkWin_grid]
    constructor
    · intro hw
      rcases (checkWin_won_iff _).mp hw with h1 | h1
      · exact absurd (show s.won = true from h1) (by simp [hwon])
      · exact h1
    · intro hc
      exact (checkWin_won_iff _).mpr (Or.inr hc)

lemma newGame_winSync (stream : List Pos) (st : GameState)
    (h : newGame stream = some st) : WinSync st := by
  have hnt := newGame_not_terminal stream st h
  unfold WinSync
  rw [hnt.2]
  constructor
  · intro hfalse
    exact Bool.noConfusion hfalse
  · rintro ⟨-, hfl⟩
    exfalso
    have hpos : 0 < mineCard st.grid := by
      rw [newGame_mineCard stream st h]
      decide
    obtain ⟨pm, hpm⟩ := exists_mine _ hpos
    exact Bool.noConfusion ((newGame_flags stream st h pm).symm.trans (hfl pm hpm))

lemma reachable_winSync (s : GameState) (h : Reachable s) : WinSync s := by
  induction h with
  | init stream s hs => exact newGame_winSync stream s hs
  | rev s p hs ih => exact winSync_reveal s p ih
  | flg s p hs ih => exact winSync_toggle s p ih

/-- C1: from any reachable non-terminal state, a reveal or toggle-flag
call ends with won = true exactly when, in the resulting state, the
number of unrevealed non-mine cells is 0 and every mine cell is flagged;
in particular with all safe cells revealed but a mine unflagged won
stays false, and flagging the last unflagged mine sets won = true. -/
theorem c1_win_condition (s : GameState) (p : Pos) (h : Reachable s)
    (hgo : s.game_over = false) (hwon : s.won = false) :
    ((reveal s p).won = true ↔
      unrevealedSafe (reveal s p).grid = 0 ∧ AllMinesFlagged (reveal s p).grid) ∧
    ((toggleFlag s p).won = true ↔
      unrevealedSafe (toggleFlag s p).grid = 0 ∧ AllMinesFlagged (toggleFlag s p).grid) := by
  have hcs : CounterSync s := reachable_counterSync s h
  have hws : WinSync s := reachable_winSync s h
  have h1 : WinSync (reveal s p) := winSync_reveal s p hws
  have hcs1 : CounterSync (reveal s p) := (reveal_stepRel s p).2.2.2 hcs
  have h2 : WinSync (toggleFlag s p) := winSync_toggle s p hws
  have hcs2 : CounterSync (toggleFlag s p) := toggleFlag_counterSync s p hcs
  unfold CounterSync at hcs1 hcs2
  constructor
  · rw [← hcs1]
    exact h1
  · rw [← hcs2]
    exact h2

/-- Witness for c1_win_condition at the concrete constructed game. -/
theorem c1_win_condition_witness :
    (reveal wState (mkP 0 0)).won = true ↔
      unrevealedSafe (reveal wState (mkP 0 0)).grid = 0 ∧
        AllMinesFlagged (reveal wState (mkP 0 0)).grid :=
  (c1_win_condition wState (mkP 0 0) (Reachable.init wStream wState newGame_wStream)
    (newGame_not_terminal wStream wState newGame_wStream).1
    (newGame_not_terminal wStream wState newGame_wStream).2).1

/-- The intermediate states of one reveal call agree with the ambient
state on every field the cascade never writes. -/
def GridCompat (s t : GameState) : Prop :=
  ∀ q : Pos, (t.grid q).is_mine = (s.grid q).is_mine ∧
    (t.grid q).is_flagged = (s.grid q).is_flagged ∧
    (t.grid q).adjacent_mines = (s.grid q).adjacent_mines

lemma count_le_of_mono (t u : GameState)
    (h : ∀ x : Pos, (t.grid x).is_revealed = true → (u.grid x).is_revealed = true) :
    countUnrevealed u.grid ≤ countUnrevealed t.grid := by
  unfold countUnrevealed
  apply Finset.card_le_card
  intro x hx
  simp only [Finset.mem_filter, Finset.mem_univ, true_and] at *
  cases hb : (t.grid x).is_revealed
  · rfl
  · rw [h x hb] at hx
    cases hx

lemma countUnrevealed_revealedGrid (t : GameState) (p : Pos)
    (hrev : (t.grid p).is_revealed = false) :
    countUnrevealed (revealedGrid t p) = countUnrevealed t.grid - 1 ∧
      0 < countUnrevealed t.grid := by
  have hmem : p ∈ Finset.univ.filter fun q : Pos => (t.grid q).is_revealed = false := by
    simp [hrev]
  constructor
  · unfold countUnrevealed
    have hset : (Finset.univ.filter fun q : Pos => (revealedGrid t p q).is_revealed = false) =
        (Finset.univ.filter fun q : Pos => (t.grid q).is_revealed = false).erase p := by
      ext q
      by_cases hq : q = p
      · subst hq; simp [revealedGrid, updateGrid]
      · simp [revealedGrid, updateGrid, hq, Finset.mem_erase]
    rw [hset, Finset.card_erase_of_mem hmem]
  · exact Finset.card_pos.mpr ⟨p, hmem⟩

lemma countUnrevealed_le (g : Pos → Cell) :
    countUnrevealed g ≤ gridSize * gridSize := by
  unfold countUnrevealed
  calc (Finset.univ.filter fun p : Pos => (g p).is_revealed = false).card
      ≤ Finset.univ.card := Finset.card_filter_le _ _
    _ = gridSize * gridSize := by rw [Finset.card_univ, card_Pos]

lemma revealed_of_unrevealedSafe_zero (g : Pos → Cell)
    (h : unrevealedSafe g = 0) (x : Pos) (hm : (g x).is_mine = false) :
    (g x).is_revealed = true := by
  by_contra hc
  have hr : (g x).is_revealed = false := Bool.not_eq_true _ ▸ hc
  have hmem : x ∈ Finset.univ.filter
      fun q : Pos => (g q).is_mine = false ∧ (g q).is_revealed = false := by
    simp [hm, hr]
  unfold unrevealedSafe at h
  rw [Finset.card_eq_zero.mp h] at hmem
  exact absurd hmem (Finset.not_mem_empty x)

lemma cell_eq_of_fields (c d : Cell) (h1 : c.is_mine = d.is_mine)
    (h2 : c.is_revealed = d.is_revealed) (h3 : c.is_flagged = d.is_flagged)
    (h4 : c.adjacent_mines = d.adjacent_mines) : c = d := by
  cases c; cases d; simp_all

/-- What one reveal_cell call on a cell of the zero region or its border
guarantees, relative to the ambient pre-call state s: untouched fields
stay compatible, no loss happens, the counter stays in sync, a set won
flag means the board has no unrevealed safe cell left, revealedness
grows soundly inside the region and its border, the target ends
revealed, every newly revealed zero-adjacency cell has all its unflagged
neighbors revealed, and the number of unrevealed cells does not grow. -/
structure CascadeFacts (s : GameState) (p₀ : Pos) (t u : GameState) (q₀ : Pos) : Prop where
  compat : GridCompat s u
  go_false : u.game_over = false
  counter_sync : CounterSync u
  won_zero : u.won = true → unrevealedSafe u.grid = 0
  mono : ∀ x : Pos, (t.grid x).is_revealed = true → (u.grid x).is_revealed = true
  sound : ∀ x : Pos, (u.grid x).is_revealed = true →
    (t.grid x).is_revealed = true ∨ ZeroReach s.grid p₀ x ∨ InBorder s.grid p₀ x
  target : (u.grid q₀).is_revealed = true
  sat : ∀ x : Pos, (u.grid x).is_revealed = true → (t.grid x).is_revealed = false →
    (s.grid x).adjacent_mines = 0 →
    ∀ y ∈ adjacentCells x, (s.grid y).is_flagged = false → (u.grid y).is_revealed = true
  count_le : countUnrevealed u.grid ≤ countUnrevealed t.grid

/-- The same guarantees for the neighbor-processing fold, plus: every
processed unflagged neighbor ends revealed. -/
structure FoldFacts (s : GameState) (p₀ : Pos) (l : List Pos) (v w : GameState) : Prop where
  compat : GridCompat s w
  go_false : w.game_over = false
  counter_sync : CounterSync w
  won_zero : w.won = true → unrevealedSafe w.grid = 0
  mono : ∀ x : Pos, (v.grid x).is_revealed = true → (w.grid x).is_revealed = true
  sound : ∀ x : Pos, (w.grid x).is_revealed = true →
    (v.grid x).is_revealed = true ∨ ZeroReach s.grid p₀ x ∨ InBorder s.grid p₀ x
  sat : ∀ x : Pos, (w.grid x).is_revealed = true → (v.grid x).is_revealed = false →
    (s.grid x).adjacent_mines = 0 →
    ∀ y ∈ adjacentCells x, (s.grid y).is_flagged = false → (w.grid y).is_revealed = true
  count_le : countUnrevealed w.grid ≤ countUnrevealed v.grid
  processed : ∀ y ∈ l, (s.grid y).is_flagged = false → (w.grid y).is_revealed = true

lemma cascadeFacts_checkWin (s : GameState) (p₀ : Pos) (t w : GameState) (q₀ : Pos)
    (h : CascadeFacts s p₀ t w q₀) : CascadeFacts s p₀ t (checkWin w) q₀ := by
  refine ⟨?_, ?_, ?_, ?_, ?_, ?_, ?_, ?_, ?_⟩
  · intro q
    rw [checkWin_grid]
    exact h.compat q
  · rw [checkWin_game_over]
    exact h.go_false
  · exact (checkWin_stepRel w).2.2.2 h.counter_sync
  · intro hww
    rw [checkWin_grid]
    rcases (checkWin_won_iff w).mp hww with h1 | h1
    · exact h.won_zero h1
    · have hcs := h.counter_sync
      unfold CounterSync at hcs
      rw [← hcs]
      exact h1.1
  · intro x hx
    rw [checkWin_grid]
    exact h.mono x hx
  · intro x hx
    rw [checkWin_grid] at hx
    exact h.sound x hx
  · rw [checkWin_grid]
    exact h.target
  · intro x hx1 hx2 hxz y hy hyf
    rw [checkWin_grid] at hx1
    rw [checkWin_grid]
    exact h.sat x hx1 hx2 hxz y hy hyf
  · rw [checkWin_grid]
    exact h.count_le

lemma revealF_cascade_master (s : GameState) (p₀ : Pos)
    (hregion : ∀ q : Pos, ZeroReach s.grid p₀ q →
      (s.grid q).is_mine = false ∧ (s.grid q).is_flagged = false ∧
        (s.grid q).is_revealed = false)
    (hborder : ∀ q : Pos, InBorder s.grid p₀ q →
      (s.grid q).is_mine = false ∧ (s.grid q).is_flagged = false) :
    ∀ (f : Nat) (t : GameState) (q₀ : Pos),
      GridCompat s t → t.game_over = false → CounterSync t →
      (t.won = true → unrevealedSafe t.grid = 0) →
      (ZeroReach s.grid p₀ q₀ ∨ InBorder s.grid p₀ q₀) →
      countUnrevealed t.grid < f →
      CascadeFacts s p₀ t (revealF f t q₀) q₀ := by
  intro f
  induction f with
  | zero => intro t q₀ _ _ _ _ _ hfuel; omega
  | succ f ih =>
    intro t q₀ hcompat htgo hcst hWt hq₀ hfuel
    have hq₀s : (s.grid q₀).is_mine = false ∧ (s.grid q₀).is_flagged = false := by
      rcases hq₀ with h | h
      · exact ⟨(hregion q₀ h).1, (hregion q₀ h).2.1⟩
      · exact hborder q₀ h
    have htm : (t.grid q₀).is_mine = false := ((hcompat q₀).1).trans hq₀s.1
    have htf : (t.grid q₀).is_flagged = false := ((hcompat q₀).2.1).trans hq₀s.2
    by_cases hw : t.won = true
    · rw [revealF_noop _ t q₀ (Or.inr (Or.inl hw))]
      exact ⟨hcompat, htgo, hcst, hWt, fun x hx => hx, fun x hx => Or.inl hx,
        revealed_of_unrevealedSafe_zero t.grid (hWt hw) q₀ htm,
        fun x hx1 hx2 => absurd hx1 (by simp [hx2]), Nat.le_refl _⟩
    · have hwon' : t.won = false := Bool.not_eq_true _ ▸ hw
      by_cases hrevq : (t.grid q₀).is_revealed = true
      · rw [revealF_noop _ t q₀ (Or.inr (Or.inr (Or.inl hrevq)))]
        exact ⟨hcompat, htgo, hcst, hWt, fun x hx => hx, fun x hx => Or.inl hx, hrevq,
          fun x hx1 hx2 => absurd hx1 (by simp [hx2]), Nat.le_refl _⟩
      · have hrevq' : (t.grid q₀).is_revealed = false := Bool.not_eq_true _ ▸ hrevq
        have hguard : ¬(t.game_over = true ∨ t.won = true ∨ (t.grid q₀).is_revealed = true ∨
            (t.grid q₀).is_flagged = true) := by simp [htgo, hwon', hrevq', htf]
        obtain ⟨hc1, hc2⟩ := countUnrevealed_revealedGrid t q₀ hrevq'
        have hcompat1 : GridCompat s (revealStep t q₀) := by
          intro x
          by_cases hx : x = q₀
          · subst hx
            obtain ⟨hm1, hf1, ha1⟩ := hcompat x
            refine ⟨?_, ?_, ?_⟩
            · simpa [revealStep, revealedGrid, updateGrid] using hm1
            · simpa [revealStep, revealedGrid, updateGrid] using hf1
            · simpa [revealStep, revealedGrid, updateGrid] using ha1
          · obtain ⟨hm1, hf1, ha1⟩ := hcompat x
            refine ⟨?_, ?_, ?_⟩
            · simpa [revealStep, revealedGrid, updateGrid, hx] using hm1
            · simpa [revealStep, revealedGrid, updateGrid, hx] using hf1
            · simpa [revealStep, revealedGrid, updateGrid, hx] using ha1
        have hmono1 : ∀ x : Pos, (t.grid x).is_revealed = true →
            ((revealStep t q₀).grid x).is_revealed = true := by
          intro x hx
          by_cases hxq : x = q₀
          · subst hxq; simp [revealStep, revealedGrid, updateGrid]
          · simpa [revealStep, revealedGrid, updateGrid, hxq] using hx
        have htarget1 : ((revealStep t q₀).grid q₀).is_revealed = true := by
          simp [revealStep, revealedGrid, updateGrid]
        have hsync1 : CounterSync (revealStep t q₀) :=
          (revealStep_stepRel t q₀ hwon' hrevq' htm).2.2.2 hcst
        have hW1 : (revealStep t q₀).won = true →
            unrevealedSafe (revealStep t q₀).grid = 0 :=
          fun hww => absurd (show t.won = true from hww) (by simp [hwon'])
        by_cases hzq : (t.grid q₀).adjacent_mines = 0
        · rw [revealF_succ_safe f t q₀ hguard htm, if_pos hzq]
          have hszero : (s.grid q₀).adjacent_mines = 0 := ((hcompat q₀).2.2).symm.trans hzq
          have hq₀Z : ZeroReach s.grid p₀ q₀ := by
            rcases hq₀ with h | h
            · exact h
            · exact absurd hszero h.2
          have hneigh : ∀ y ∈ adjacentCells q₀,
              ZeroReach s.grid p₀ y ∨ InBorder s.grid p₀ y := by
            intro y hy
            by_cases hyz : (s.grid y).adjacent_mines = 0
            · exact Or.inl (ZeroReach.step hq₀Z hszero hy hyz)
            · exact Or.inr ⟨⟨q₀, hq₀Z, hszero, hy⟩, hyz⟩
          have hfold : ∀ (l : List Pos),
              (∀ y ∈ l, ZeroReach s.grid p₀ y ∨ InBorder s.grid p₀ y) →
              ∀ v : GameState, GridCompat s v → v.game_over = false → CounterSync v →
              (v.won = true → unrevealedSafe v.grid = 0) →
              countUnrevealed v.grid < f → FoldFacts s p₀ l v (cascade f v l) := by
            intro l
            induction l with
            | nil =>
              intro _ v hvc hvg hvcs hvW _
              rw [cascade_nil]
              exact ⟨hvc, hvg, hvcs, hvW, fun x hx => hx, fun x hx => Or.inl hx,
                fun x hx1 hx2 => absurd hx1 (by simp [hx2]),
                Nat.le_refl _, fun y hy => absurd hy (List.not_mem_nil y)⟩
            | cons y rest ihl =>
              intro hl v hvc hvg hvcs hvW hvf
              rw [cascade_cons]
              by_cases hpre : (v.grid y).is_revealed = false ∧ (v.grid y).is_flagged = false
              · rw [if_pos hpre]
                have hcall : CascadeFacts s p₀ v (revealF f v y) y :=
                  ih v y hvc hvg hvcs hvW (hl y (List.mem_cons_self y rest)) hvf
                have hrest : FoldFacts s p₀ rest (revealF f v y)
                    (cascade f (revealF f v y) rest) :=
                  ihl (fun x hx => hl x (List.mem_cons_of_mem y hx)) (revealF f v y)
                    hcall.compat hcall.go_false hcall.counter_sync hcall.won_zero
                    (lt_of_le_of_lt hcall.count_le hvf)
                refine ⟨hrest.compat, hrest.go_false, hrest.counter_sync, hrest.won_zero,
                  ?_, ?_, ?_, ?_, ?_⟩
                · exact fun x hx => hrest.mono x (hcall.mono x hx)
                · intro x hx
                  rcases hrest.sound x hx with h | h
                  · exact hcall.sound x h
                  · exact Or.inr h
                · intro x hx1 hx2 hxz yy hyy hyyf
                  by_cases hmid : ((revealF f v y).grid x).is_revealed = true
                  · exact hrest.mono yy (hcall.sat x hmid hx2 hxz yy hyy hyyf)
                  · exact hrest.sat x hx1 (Bool.not_eq_true _ ▸ hmid) hxz yy hyy hyyf
                · exact le_trans hrest.count_le hcall.count_le
                · intro z hz hzf
                  rcases List.mem_cons.mp hz with hz | hz
                  · subst hz
                    exact hrest.mono z hcall.target
                  · exact hrest.processed z hz hzf
              · rw [if_neg hpre]
                have hrest : FoldFacts s p₀ rest v (cascade f v rest) :=
                  ihl (fun x hx => hl x (List.mem_cons_of_mem y hx)) v hvc hvg hvcs hvW hvf
                refine ⟨hrest.compat, hrest.go_false, hrest.counter_sync, hrest.won_zero,
                  hrest.mono, hrest.sound, hrest.sat, hrest.count_le, ?_⟩
                intro z hz hzf
                rcases List.mem_cons.mp hz with hz | hz
                · subst hz
                  have hvflag : (v.grid z).is_flagged = false := ((hvc z).2.1).trans hzf
                  have hrev : (v.grid z).is_revealed = true := by
                    by_contra hcz
                    exact hpre ⟨Bool.not_eq_true _ ▸ hcz, hvflag⟩
                  exact hrest.mono z hrev
                · exact hrest.processed z hz hzf
          have hstep1cnt : countUnrevealed (revealStep t q₀).grid < f := by
            show countUnrevealed (revealedGrid t q₀) < f
            omega
          have hF := hfold (adjacentCells q₀) hneigh (revealStep t q₀) hcompat1
            htgo hsync1 hW1 hstep1cnt
          refine cascadeFacts_checkWin s p₀ t _ q₀ ?_
          refine ⟨hF.compat, hF.go_false, hF.counter_sync, hF.won_zero, ?_, ?_, ?_, ?_, ?_⟩
          · exact fun x hx => hF.mono x (hmono1 x hx)
          · intro x hx
            rcases hF.sound x hx with h | h
            · by_cases hxq : x = q₀
              · subst hxq; exact Or.inr (Or.inl hq₀Z)
              · left
                simpa [revealStep, revealedGrid, updateGrid, hxq] using h
            · exact Or.inr h
          · exact hF.mono q₀ htarget1
          · intro x hx1 hx2 hxz yy hyy hyyf
            by_cases hxq : x = q₀
            · subst hxq
              exact hF.processed yy hyy hyyf
            · by_cases hmid : ((revealStep t q₀).grid x).is_revealed = true
              · exfalso
                have hxt : (t.grid x).is_revealed = true := by
                  simpa [revealStep, revealedGrid, updateGrid, hxq] using hmid
                simp [hx2] at hxt
              · exact hF.sat x hx1 (Bool.not_eq_true _ ▸ hmid) hxz yy hyy hyyf
          · refine le_trans hF.count_le ?_
            show countUnrevealed (revealedGrid t q₀) ≤ countUnrevealed t.grid
            omega
        · rw [revealF_succ_safe f t q₀ hguard htm, if_neg hzq]
          refine cascadeFacts_checkWin s p₀ t _ q₀ ?_
          refine ⟨hcompat1, htgo, hsync1, hW1, hmono1, ?_, htarget1, ?_, ?_⟩
          · intro x hx
            by_cases hxq : x = q₀
            · subst hxq; exact Or.inr hq₀
            · left
              simpa [revealStep, revealedGrid, updateGrid, hxq] using hx
          · intro x hx1 hx2 hxz
            exfalso
            by_cases hxq : x = q₀
            · subst hxq
              exact (fun hh => hzq (((hcompat x).2.2).trans hh)) hxz
            · have hxt : (t.grid x).is_revealed = true := by
                simpa [revealStep, revealedGrid, updateGrid, hxq] using hx1
              simp [hx2] at hxt
          · show countUnrevealed (revealedGrid t q₀) ≤ countUnrevealed t.grid
            omega

/-- C2 exactly as the specification states it, for one state and start
cell: if the start cell is in-bounds, non-mine, unflagged, unrevealed and
has zero adjacent mines in a non-terminal state, the reveal makes
revealed exactly the prior revealed cells plus the maximal connected
zero-adjacency region and its numbered border, and no flagged cell
changes. -/
def CascadeClaim (s : GameState) (p₀ : Pos) : Prop :=
  s.game_over = false → s.won = false →
  (s.grid p₀).is_mine = false → (s.grid p₀).is_flagged = false →
  (s.grid p₀).is_revealed = false → (s.grid p₀).adjacent_mines = 0 →
  (∀ q : Pos, ((reveal s p₀).grid q).is_revealed = true ↔
      ((s.grid q).is_revealed = true ∨ ZeroReach s.grid p₀ q ∨ InBorder s.grid p₀ q)) ∧
  (∀ q : Pos, (s.grid q).is_flagged = true → (reveal s p₀).grid q = s.grid q)

/-- The lattice mine layout of wStream as a plain grid. -/
def wMinesGrid : Pos → Cell := fun p =>
  if p ∈ wStream then { Cell.new with is_mine := true } else Cell.new

/-- The lattice board with adjacency computed, nothing revealed, and the
numbered border cell (8,8) of the unique zero cell (9,9) flagged. -/
def cexState : GameState :=
  { grid := updateGrid (calculateAdjacentMines wMinesGrid) (mkP 8 8)
      ({ calculateAdjacentMines wMinesGrid (mkP 8 8) with is_flagged := true }),
    game_over := false, won := false,
    unrevealed_non_mine_count := gridSize * gridSize - mineCount }

/-- Counterexample to C2 as stated: in cexState the numbered border cell
(8,8) of the zero region of (9,9) is flagged, so the cascade skips it
and it stays unrevealed, while the claim says every numbered border cell
of the region becomes revealed. -/
theorem c2_cascade_counterexample : ¬ CascadeClaim cexState (mkP 9 9) := by
  intro hclaim
  have h := hclaim rfl rfl (by decide) (by decide) (by decide) (by decide)
  have hborder88 : InBorder cexState.grid (mkP 9 9) (mkP 8 8) :=
    ⟨⟨mkP 9 9, ZeroReach.base, by decide, by decide⟩, by decide⟩
  have h88 := (h.1 (mkP 8 8)).mpr (Or.inr (Or.inr hborder88))
  have hfalse : ((reveal cexState (mkP 9 9)).grid (mkP 8 8)).is_revealed = false := by decide
  exact Bool.noConfusion (hfalse.symm.trans h88)

/-- C2 amended: the cascade conclusion holds under the side conditions
the code requires: every cell of the zero region is non-mine, unflagged
and unrevealed, every cell of the numbered border is non-mine and
unflagged, and the unrevealed-safe counter matches the board (the
data-model invariant of every reachable state, proved in
reachable_counterSync). -/
theorem c2_cascade_corrected (s : GameState) (p₀ : Pos)
    (hgo : s.game_over = false) (hwon : s.won = false)
    (hstart : (s.grid p₀).adjacent_mines = 0)
    (hregion : ∀ q : Pos, ZeroReach s.grid p₀ q →
      (s.grid q).is_mine = false ∧ (s.grid q).is_flagged = false ∧
        (s.grid q).is_revealed = false)
    (hborder : ∀ q : Pos, InBorder s.grid p₀ q →
      (s.grid q).is_mine = false ∧ (s.grid q).is_flagged = false)
    (hsync : CounterSync s) :
    (∀ q : Pos, ((reveal s p₀).grid q).is_revealed = true ↔
      ((s.grid q).is_revealed = true ∨ ZeroReach s.grid p₀ q ∨ InBorder s.grid p₀ q)) ∧
    (∀ q : Pos, (s.grid q).is_flagged = true → (reveal s p₀).grid q = s.grid q) := by
  have hfacts : CascadeFacts s p₀ s (revealF fuelMax s p₀) p₀ :=
    revealF_cascade_master s p₀ hregion hborder fuelMax s p₀
      (fun q => ⟨rfl, rfl, rfl⟩) hgo hsync
      (fun hww => absurd hww (by simp [hwon])) (Or.inl ZeroReach.base)
      (Nat.lt_succ_of_le (countUnrevealed_le s.grid))
  have hZ : ∀ q : Pos, ZeroReach s.grid p₀ q →
      ((reveal s p₀).grid q).is_revealed = true := by
    intro q hq
    induction hq with
    | base => exact hfacts.target
    | step hZp hpz hmem hqz ihp =>
      exact hfacts.sat _ ihp ((hregion _ hZp).2.2) hpz _ hmem
        ((hregion _ (ZeroReach.step hZp hpz hmem hqz)).2.1)
  have hB : ∀ q : Pos, InBorder s.grid p₀ q →
      ((reveal s p₀).grid q).is_revealed = true := by
    intro q hq
    obtain ⟨⟨p, hpZ, hpz, hmem⟩, hqnz⟩ := hq
    exact hfacts.sat p (hZ p hpZ) ((hregion p hpZ).2.2) hpz q hmem
      ((hborder q ⟨⟨p, hpZ, hpz, hmem⟩, hqnz⟩).2)
  constructor
  · intro q
    constructor
    · intro hq
      exact hfacts.sound q hq
    · intro hq
      rcases hq with h | h | h
      · exact hfacts.mono q h
      · exact hZ q h
      · exact hB q h
  · intro q hq
    have hnotR : ¬(ZeroReach s.grid p₀ q ∨ InBorder s.grid p₀ q) := by
      rintro (h | h)
      · exact Bool.noConfusion (((hregion q h).2.1).symm.trans hq)
      · exact Bool.noConfusion (((hborder q h).2).symm.trans hq)
    have hrevEq : ((reveal s p₀).grid q).is_revealed = (s.grid q).is_revealed := by
      cases hb : (s.grid q).is_revealed
      · cases hb2 : ((reveal s p₀).grid q).is_revealed
        · rfl
        · rcases hfacts.sound q hb2 with h | h
          · rw [hb] at h; exact Bool.noConfusion h
          · exact absurd h hnotR
      · exact hfacts.mono q hb
    exact cell_eq_of_fields _ _ ((hfacts.compat q).1) hrevEq ((hfacts.compat q).2.1)
      ((hfacts.compat q).2.2)

/-- The lattice board with adjacency computed and nothing revealed or
flagged; (9,9) is its unique zero-adjacency cell. -/
def wPreState : GameState :=
  { grid := calculateAdjacentMines wMinesGrid, game_over := false, won := false,
    unrevealed_non_mine_count := gridSize * gridSize - mineCount }

lemma wPreState_region_char (q : Pos)
    (hq : ZeroReach wPreState.grid (mkP 9 9) q) : q = mkP 9 9 := by
  induction hq with
  | base => rfl
  | step hZp hpz hmem hqz ihp =>
    subst ihp
    have hnz : ∀ x ∈ adjacentCells (mkP 9 9),
        (wPreState.grid x).adjacent_mines ≠ 0 := by decide
    exact absurd hqz (hnz _ hmem)

/-- Witness for c2_cascade_corrected: on the lattice board, revealing
(9,9) reveals its numbered border cell (8,8). -/
theorem c2_cascade_corrected_witness :
    ((reveal wPreState (mkP 9 9)).grid (mkP 8 8)).is_revealed = true := by
  have hregion : ∀ q : Pos, ZeroReach wPreState.grid (mkP 9 9) q →
      (wPreState.grid q).is_mine = false ∧ (wPreState.grid q).is_flagged = false ∧
        (wPreState.grid q).is_revealed = false := by
    intro q hq
    have hq9 := wPreState_region_char q hq
    subst hq9
    refine ⟨by decide, by decide, by decide⟩
  have hborder : ∀ q : Pos, InBorder wPreState.grid (mkP 9 9) q →
      (wPreState.grid q).is_mine = false ∧ (wPreState.grid q).is_flagged = false := by
    intro q hq
    obtain ⟨⟨p, hpZ, hpz, hmem⟩, hqnz⟩ := hq
    have hp9 := wPreState_region_char p hpZ
    subst hp9
    have hfacts : ∀ x ∈ adjacentCells (mkP 9 9),
        (wPreState.grid x).is_mine = false ∧ (wPreState.grid x).is_flagged = false := by
      decide
    exact hfacts q hmem
  have hsync : CounterSync wPreState := by
    unfold CounterSync
    decide
  exact ((c2_cascade_corrected wPreState (mkP 9 9) rfl rfl (by decide) hregion hborder
      hsync).1 (mkP 8 8)).mpr
    (Or.inr (Or.inr ⟨⟨mkP 9 9, ZeroReach.base, by decide, by decide⟩, by decide⟩))
